import Mathlib

/-!
Verification development for the `modbus_mapped_device` repository.

The definitions below are a shallow embedding of the Python source,
primarily `src/coordinator.py` (the most capable coordinator variant,
which the specification describes), covering the mapping loader, the
register codec, the read planner, the poll cycle and the write path.

Conventions:
* Python `int` is `Int` (arbitrary precision); register words coming
  from the device (pymodbus `rr.registers`) are non-negative and are
  modelled as `Nat`; `x & 0xFFFF` on a non-negative value is `x % 65536`.
* Python `float` is modelled as `ℚ` for finite values; IEEE-754
  binary32 reinterpretation (`struct.unpack(">f", struct.pack(">I", raw))`)
  is modelled exactly, including subnormals, infinities and NaN.
* Fallible Python code (exceptions) is modelled with `Option`/`Except`.
* Python `dict` used for the snapshot is an insertion-ordered
  association list; assignment replaces the value of an existing key.
-/

namespace ModbusMapped

/-! ## Python-like scalar values -/

/-- A Python number-like value as it can appear as a write input or a
`scale` entry: `int`, `float` (finite, modelled as `ℚ`), or `bool`. -/
inductive PyNum where
  | int (n : Int)
  | float (q : ℚ)
  | bool (b : Bool)
deriving DecidableEq, Repr

/-- Python `float(x)` on a number-like value (`bool` converts to 0/1). -/
def PyNum.toFloat : PyNum → ℚ
  | .int n => (n : ℚ)
  | .float q => q
  | .bool b => if b then 1 else 0

/-- Python truthiness `bool(x)` of a number-like value. -/
def PyNum.truthy : PyNum → Bool
  | .int n => n != 0
  | .float q => q != 0
  | .bool b => b

/-- Rational truncation toward zero, the behaviour of Python `int(float)`. -/
def ratTrunc (q : ℚ) : Int := if 0 ≤ q then ⌊q⌋ else ⌈q⌉

/-- Python `int(x)` on a number-like value (floats truncate toward zero). -/
def PyNum.toInt : PyNum → Int
  | .int n => n
  | .float q => ratTrunc q
  | .bool b => if b then 1 else 0

/-! ## Decoded values

`_decode_16_32` returns a Python `int` or `float`; the bit-extraction
and coil paths produce `bool`.  A `float` may be an IEEE special value
(infinity or NaN) when a `float32` register pattern encodes one. -/

/-- Result of decoding registers: the dynamic value stored in the
snapshot (`int`, finite `float`, IEEE infinity/NaN, or `bool`). -/
inductive Value where
  | int (n : Int)
  | float (q : ℚ)
  | inf (neg : Bool)
  | nan
  | bool (b : Bool)
deriving DecidableEq, Repr

/-- The IEEE-754 binary32 interpretation of a 32-bit pattern - the
meaning of Python `struct.unpack(">f", struct.pack(">I", raw))[0]`.
Covers normals, subnormals, signed infinities and NaN exactly; finite
values are exact rationals (binary64 represents every binary32 value
exactly, so the Python float is this exact value). -/
def float32OfBits (n : Nat) : Value :=
  let s : Nat := n / 2 ^ 31 % 2
  let e : Nat := n / 2 ^ 23 % 2 ^ 8
  let f : Nat := n % 2 ^ 23
  let sgn : ℚ := if s = 1 then -1 else 1
  if e = 255 then
    if f = 0 then .inf (decide (s = 1)) else .nan
  else if e = 0 then
    .float (sgn * (f : ℚ) / 2 ^ 149)
  else
    .float (sgn * ((2 ^ 23 + f : ℚ)) * 2 ^ e / 2 ^ 150)

/-- Two's-complement 16-bit reinterpretation: the meaning of Python
`struct.unpack(">h", struct.pack(">H", x))[0]` for `x < 2^16`. -/
def toInt16 (x : Nat) : Int := if x < 0x8000 then (x : Int) else (x : Int) - 0x10000

/-- Two's-complement 32-bit reinterpretation: the meaning of Python
`struct.unpack(">i", struct.pack(">I", x))[0]` for `x < 2^32`. -/
def toInt32 (x : Nat) : Int :=
  if x < 0x80000000 then (x : Int) else (x : Int) - 0x100000000

/-- Embedding of `_decode_16_32(dtype, regs, word_order)`
(`src/coordinator.py:137-156`).  `none` models a raised `IndexError`
(register list shorter than the data type needs). -/
def decode16_32 (dtype : String) (regs0 : List Nat) (wordOrder : String) : Option Value :=
  -- regs = [int(r) & 0xFFFF for r in regs]
  let regs1 : List Nat := regs0.map (· % 65536)
  -- if word_order == "BA" and len(regs) == 2: regs = [regs[1], regs[0]]
  let regs : List Nat := if wordOrder = "BA" ∧ regs1.length = 2 then regs1.reverse else regs1
  if dtype = "uint16" then
    (regs.get? 0).map fun r => .int (r : Int)
  else if dtype = "int16" then
    (regs.get? 0).map fun r => .int (toInt16 r)
  else
    -- raw = ((regs[0] << 16) | regs[1]) & 0xFFFFFFFF
    match regs.get? 0, regs.get? 1 with
    | some r0, some r1 =>
      let raw : Nat := ((r0 <<< 16) ||| r1) % 2 ^ 32
      if dtype = "uint32" then some (.int (raw : Int))
      else if dtype = "int32" then some (.int (toInt32 raw))
      else if dtype = "float32" then some (float32OfBits raw)
      else some (.int (r0 : Int))   -- final `return regs[0]`
    | _, _ => none

/-! ## C2: decode reference semantics -/

theorem decode16_32_uint16 (r : Nat) (wo : String) :
    decode16_32 "uint16" [r] wo = some (.int ((r &&& 0xFFFF : Nat) : Int)) := by
  have h : r &&& 65535 = r % 65536 := Nat.and_pow_two_sub_one_eq_mod r 16
  simp [decode16_32, h]

theorem combine32_lt (hi lo : Nat) (hhi : hi < 2 ^ 16) (hlo : lo < 2 ^ 16) :
    (hi <<< 16) ||| lo < 2 ^ 32 := by
  have h1 : hi <<< 16 = hi * 65536 := by rw [Nat.shiftLeft_eq]
  rw [h1]
  exact Nat.or_lt_two_pow (by omega) (by omega)

/-- C2: decode matches the reference semantics for all five data types:
`uint16` is the low 16 bits of the single register; `int16` is its
two's-complement 16-bit sign extension (characterised by congruence
mod 2^16 and the range [-2^15, 2^15), with the spot values
`0x8000 -> -32768` and `0x7FFF -> 32767`); the 32-bit types combine two
registers as `(reg0 <<< 16) ||| reg1` after applying word order, with
`uint32` the raw value, `int32` its two's-complement 32-bit sign
extension, and `float32` the IEEE-754 binary32 reinterpretation of the
pattern (spot-checked on `0x3F800000 = 1.0` and `0x40490000 = 3.140625`);
and for every register pair and 32-bit data type,
`decode dtype [hi, lo] "BA" = decode dtype [lo, hi] "AB"`. -/
theorem C2_decode_matches_reference_semantics :
    (∀ r wo, decode16_32 "uint16" [r] wo = some (.int ((r &&& 0xFFFF : Nat) : Int)))
    ∧ (∀ r wo, r < 2 ^ 16 →
        decode16_32 "int16" [r] wo = some (.int (toInt16 r))
        ∧ toInt16 r % (2 ^ 16 : Int) = (r : Int) % 2 ^ 16
        ∧ -2 ^ 15 ≤ toInt16 r ∧ toInt16 r < 2 ^ 15)
    ∧ decode16_32 "int16" [0x8000] "AB" = some (.int (-32768))
    ∧ decode16_32 "int16" [0x7FFF] "AB" = some (.int 32767)
    ∧ (∀ hi lo, hi < 2 ^ 16 → lo < 2 ^ 16 →
        decode16_32 "uint32" [hi, lo] "AB" = some (.int (((hi <<< 16) ||| lo : Nat) : Int))
        ∧ decode16_32 "int32" [hi, lo] "AB" = some (.int (toInt32 ((hi <<< 16) ||| lo)))
        ∧ toInt32 ((hi <<< 16) ||| lo) % (2 ^ 32 : Int)
            = (((hi <<< 16) ||| lo : Nat) : Int) % 2 ^ 32
        ∧ -2 ^ 31 ≤ toInt32 ((hi <<< 16) ||| lo) ∧ toInt32 ((hi <<< 16) ||| lo) < 2 ^ 31
        ∧ decode16_32 "float32" [hi, lo] "AB" = some (float32OfBits ((hi <<< 16) ||| lo)))
    ∧ float32OfBits 0x3F800000 = .float 1
    ∧ float32OfBits 0x40490000 = .float (201 / 64)
    ∧ (∀ dtype hi lo, dtype ∈ ["uint32", "int32", "float32"] →
        decode16_32 dtype [hi, lo] "BA" = decode16_32 dtype [lo, hi] "AB") := by
  refine ⟨decode16_32_uint16, ?_, by decide, by decide, ?_,
    by simp only [float32OfBits]; norm_num, by simp only [float32OfBits]; norm_num, ?_⟩
  · intro r wo hr
    have hmod : r % 65536 = r := Nat.mod_eq_of_lt hr
    refine ⟨by simp [decode16_32, hmod], ?_, ?_, ?_⟩ <;>
      · simp only [toInt16]
        split <;> omega
  · intro hi lo hhi hlo
    have hmodh : hi % 65536 = hi := Nat.mod_eq_of_lt hhi
    have hmodl : lo % 65536 = lo := Nat.mod_eq_of_lt hlo
    have hlt : (hi <<< 16) ||| lo < 2 ^ 32 := combine32_lt hi lo hhi hlo
    have hraw : ((hi <<< 16) ||| lo) % 4294967296 = (hi <<< 16) ||| lo := by omega
    refine ⟨by simp [decode16_32, hmodh, hmodl, hraw], by simp [decode16_32, hmodh, hmodl, hraw],
      ?_, ?_, ?_, by simp [decode16_32, hmodh, hmodl, hraw]⟩ <;>
      · simp only [toInt32]
        split <;> omega
  · intro dtype hi lo _
    simp [decode16_32]

/-- Witness for C2: instantiates the quantified parts at concrete inputs. -/
theorem C2_decode_matches_reference_semantics_witness :
    decode16_32 "uint32" [1, 2] "AB" = some (.int (((1 <<< 16) ||| 2 : Nat) : Int))
    ∧ decode16_32 "float32" [7, 9] "BA" = decode16_32 "float32" [9, 7] "AB" :=
  ⟨(C2_decode_matches_reference_semantics.2.2.2.2.1 1 2 (by norm_num) (by norm_num)).1,
   C2_decode_matches_reference_semantics.2.2.2.2.2.2.2 "float32" 7 9 (by decide)⟩

/-! ## Read planner: `_group_ranges` (`src/coordinator.py:308-335`) -/

/-- One `(start, end, payload)` item handed to `_group_ranges`
(inclusive end, addresses are Python ints). -/
structure RItem (α : Type) where
  s : Int
  e : Int
  payload : α
deriving DecidableEq, Repr

/-- Stable sort by start address, modelling `sorted(items, key=lambda x: x[0])`
(Python's sort is stable; insertion sort by the same key is stable too,
so the two agree element for element). -/
def sortByStart (xs : List (RItem α)) : List (RItem α) :=
  xs.insertionSort fun a b => a.s ≤ b.s

/-- The scan loop of `_group_ranges`: current open range
`(curS, curE, curPs)`, emitted groups accumulated in order. -/
def groupGo (maxSpan : Int) : List (RItem α) → Int → Int → List α → List (Int × Int × List α)
  | [], curS, curE, curPs => [(curS, curE, curPs)]
  | it :: rest, curS, curE, curPs =>
    -- new_s = cur_s; new_e = max(cur_e, e); span = new_e - new_s + 1
    let newE := max curE it.e
    let span := newE - curS + 1
    if it.s ≤ curE + 1 ∧ span ≤ maxSpan then
      groupGo maxSpan rest curS newE (curPs ++ [it.payload])
    else
      (curS, curE, curPs) :: groupGo maxSpan rest it.s it.e [it.payload]

/-- Embedding of `_group_ranges(items, max_span)`. -/
def groupRanges (items : List (RItem α)) (maxSpan : Int) : List (Int × Int × List α) :=
  match sortByStart items with
  | [] => []
  | it :: rest => groupGo maxSpan rest it.s it.e [it.payload]

instance : IsTotal (RItem α) (fun a b => a.s ≤ b.s) := ⟨fun a b => le_total a.s b.s⟩

instance : IsTrans (RItem α) (fun a b => a.s ≤ b.s) := ⟨fun _ _ _ h h' => le_trans h h'⟩

theorem sortByStart_sorted (xs : List (RItem α)) :
    (sortByStart xs).Sorted fun a b => a.s ≤ b.s :=
  List.sorted_insertionSort _ xs

theorem sortByStart_perm (xs : List (RItem α)) : (sortByStart xs).Perm xs :=
  List.perm_insertionSort _ xs

theorem filter_orderedInsert (k : Int) (x : RItem α) (ys : List (RItem α)) :
    ((List.orderedInsert (fun a b => a.s ≤ b.s) x ys).filter fun it => it.s == k)
      = if x.s = k then x :: ys.filter (fun it => it.s == k)
        else ys.filter fun it => it.s == k := by
  induction ys with
  | nil => simp [List.orderedInsert, List.filter]; split <;> simp_all
  | cons y ys ih =>
    by_cases hxy : x.s ≤ y.s
    · simp only [List.orderedInsert, if_pos hxy, List.filter]
      split <;> split <;> simp_all
    · simp only [List.orderedInsert, if_neg hxy, List.filter_cons, ih]
      have hy : ¬(x.s = k ∧ y.s = k) := by rintro ⟨rfl, h⟩; omega
      split <;> split <;> simp_all

/-- Stability of the start-address sort: for every key value, the
subsequence of items with that start is preserved in original order. -/
theorem filter_sortByStart (k : Int) (xs : List (RItem α)) :
    ((sortByStart xs).filter fun it => it.s == k) = xs.filter fun it => it.s == k := by
  induction xs with
  | nil => rfl
  | cons x xs ih =>
    simp only [sortByStart, List.insertionSort] at *
    rw [filter_orderedInsert, ih, List.filter_cons]
    split <;> simp_all

/-- Invariant proof for the scan: if the open range and all remaining
items respect the bound, every emitted range respects the bound. -/
theorem groupGo_bounded (maxSpan : Int) (rest : List (RItem α)) :
    ∀ curS curE curPs, curE - curS + 1 ≤ maxSpan →
      (∀ it ∈ rest, it.e - it.s + 1 ≤ maxSpan) →
      ∀ g ∈ groupGo maxSpan rest curS curE curPs, g.2.1 - g.1 + 1 ≤ maxSpan := by
  induction rest with
  | nil =>
    intro curS curE curPs hcur _ g hg
    simp only [groupGo, List.mem_singleton] at hg
    subst hg; exact hcur
  | cons it rest ih =>
    intro curS curE curPs hcur hrest g hg
    simp only [groupGo] at hg
    split at hg
    · exact ih curS (max curE it.e) _ (by omega)
        (fun i hi => hrest i (List.mem_cons_of_mem _ hi)) g hg
    · rcases List.mem_cons.mp hg with rfl | hg'
      · exact hcur
      · exact ih it.s it.e _ (by have := hrest it (List.mem_cons_self _ _); omega)
          (fun i hi => hrest i (List.mem_cons_of_mem _ hi)) g hg'

/-- The scan emits every payload exactly once, in scan order. -/
theorem groupGo_join (maxSpan : Int) (rest : List (RItem α)) :
    ∀ curS curE curPs,
      ((groupGo maxSpan rest curS curE curPs).map fun g => g.2.2).flatten
        = curPs ++ rest.map (·.payload) := by
  induction rest with
  | nil => intro curS curE curPs; simp [groupGo]
  | cons it rest ih =>
    intro curS curE curPs
    simp only [groupGo]
    split
    · rw [List.map_cons]
      simp [ih, List.append_assoc]
    · simp [ih]

/-- Containment invariant: given a span projection `f` that agrees with
the items, every payload in a group lies within the group's range. -/
theorem groupGo_contains (maxSpan : Int) (f : α → Int × Int) (rest : List (RItem α)) :
    ∀ curS curE curPs,
      (∀ it ∈ rest, f it.payload = (it.s, it.e)) →
      (∀ it ∈ rest, curS ≤ it.s) →
      rest.Sorted (fun a b => a.s ≤ b.s) →
      (∀ p ∈ curPs, curS ≤ (f p).1 ∧ (f p).2 ≤ curE) →
      ∀ g ∈ groupGo maxSpan rest curS curE curPs,
        ∀ p ∈ g.2.2, g.1 ≤ (f p).1 ∧ (f p).2 ≤ g.2.1 := by
  induction rest with
  | nil =>
    intro curS curE curPs _ _ _ hps g hg
    simp only [groupGo, List.mem_singleton] at hg
    subst hg; exact hps
  | cons it rest ih =>
    intro curS curE curPs hf hlow hsorted hps g hg
    simp only [groupGo] at hg
    have hfit : f it.payload = (it.s, it.e) := hf it (List.mem_cons_self _ _)
    have hfr : ∀ i ∈ rest, f i.payload = (i.s, i.e) :=
      fun i hi => hf i (List.mem_cons_of_mem _ hi)
    have hsr : rest.Sorted (fun a b => a.s ≤ b.s) := (List.sorted_cons.mp hsorted).2
    split at hg
    · refine ih curS (max curE it.e) _ hfr
        (fun i hi => hlow i (List.mem_cons_of_mem _ hi)) hsr ?_ g hg
      intro p hp
      rcases List.mem_append.mp hp with hp' | hp'
      · have := hps p hp'
        constructor
        · exact this.1
        · exact le_trans this.2 (le_max_left _ _)
      · simp only [List.mem_singleton] at hp'
        subst hp'
        rw [hfit]
        exact ⟨hlow it (List.mem_cons_self _ _), le_max_right _ _⟩
    · rcases List.mem_cons.mp hg with rfl | hg'
      · exact hps
      · refine ih it.s it.e _ hfr ?_ hsr ?_ g hg'
        · exact fun i hi => (List.sorted_cons.mp hsorted).1 i hi
        · intro p hp
          simp only [List.mem_singleton] at hp
          subst hp
          rw [hfit]
          exact ⟨le_refl _, le_refl _⟩

/-- The groups emit exactly the sorted payloads, in order. -/
theorem groupRanges_join (items : List (RItem α)) (maxSpan : Int) :
    ((groupRanges items maxSpan).map fun g => g.2.2).flatten
      = (sortByStart items).map (·.payload) := by
  unfold groupRanges
  rcases hl : sortByStart items with _ | ⟨it, rest⟩
  · simp
  · rw [groupGo_join]
    simp

/-- C3: the read planner sorts spans by start address (stably: ties keep
original input order) and greedily merges a span into the open range
exactly when its start is at most the current end plus one and the
merged total span stays within the maximum; hence (given every
individual span respects the bound) every emitted range respects the
bound, the emitted groups partition the sorted payloads in order, each
group contains exactly the payloads whose spans lie inside it, and the
two worked examples hold. -/
theorem C3_read_planner_grouping :
    (∀ (α : Type) (items : List (RItem α)),
      ((sortByStart items).Sorted fun a b => a.s ≤ b.s)
      ∧ (sortByStart items).Perm items
      ∧ ∀ k : Int, ((sortByStart items).filter fun it => it.s == k)
          = items.filter fun it => it.s == k)
    ∧ (∀ (α : Type) (items : List (RItem α)) (maxSpan : Int),
        (∀ it ∈ items, it.e - it.s + 1 ≤ maxSpan) →
        ∀ g ∈ groupRanges items maxSpan, g.2.1 - g.1 + 1 ≤ maxSpan)
    ∧ (∀ (α : Type) (items : List (RItem α)) (maxSpan : Int),
        ((groupRanges items maxSpan).map fun g => g.2.2).flatten
          = (sortByStart items).map (·.payload))
    ∧ (∀ (α : Type) (items : List (RItem α)) (maxSpan : Int) (f : α → Int × Int),
        (∀ it ∈ items, f it.payload = (it.s, it.e)) →
        ∀ g ∈ groupRanges items maxSpan, ∀ p ∈ g.2.2, g.1 ≤ (f p).1 ∧ (f p).2 ≤ g.2.1)
    ∧ groupRanges [⟨1, 1, "a"⟩, ⟨2, 2, "b"⟩, ⟨5, 5, "c"⟩] 10
        = [(1, 2, ["a", "b"]), (5, 5, ["c"])]
    ∧ groupRanges [⟨1, 1, "a"⟩, ⟨2, 2, "b"⟩, ⟨3, 3, "c"⟩, ⟨4, 4, "d"⟩] 3
        = [(1, 3, ["a", "b", "c"]), (4, 4, ["d"])] := by
  refine ⟨?_, ?_, ?_, ?_, by decide, by decide⟩
  · exact fun α items =>
      ⟨sortByStart_sorted items, sortByStart_perm items, fun k => filter_sortByStart k items⟩
  · intro α items maxSpan h g hg
    have hsortmem : ∀ it ∈ sortByStart items, it.e - it.s + 1 ≤ maxSpan :=
      fun it hit => h it ((sortByStart_perm items).mem_iff.mp hit)
    unfold groupRanges at hg
    rcases hl : sortByStart items with _ | ⟨it, rest⟩
    · rw [hl] at hg; simp at hg
    · rw [hl] at hg
      refine groupGo_bounded maxSpan rest it.s it.e _ ?_ ?_ g hg
      · have := hsortmem it (by rw [hl]; exact List.mem_cons_self _ _)
        omega
      · exact fun i hi => hsortmem i (by rw [hl]; exact List.mem_cons_of_mem _ hi)
  · intro α items maxSpan
    exact groupRanges_join items maxSpan
  · intro α items maxSpan f hf g hg p hp
    have hfs : ∀ it ∈ sortByStart items, f it.payload = (it.s, it.e) :=
      fun it hit => hf it ((sortByStart_perm items).mem_iff.mp hit)
    have hsorted := sortByStart_sorted items
    unfold groupRanges at hg
    rcases hl : sortByStart items with _ | ⟨it, rest⟩
    · rw [hl] at hg; simp at hg
    · rw [hl] at hg hsorted
      have hcons := List.sorted_cons.mp hsorted
      refine groupGo_contains maxSpan f rest it.s it.e _
        (fun i hi => hfs i (by rw [hl]; exact List.mem_cons_of_mem _ hi))
        hcons.1 hcons.2 ?_ g hg p hp
      intro q hq
      simp only [List.mem_singleton] at hq
      subst hq
      rw [hfs it (by rw [hl]; exact List.mem_cons_self _ _)]
      exact ⟨le_refl _, le_refl _⟩

/-- Witness for C3: instantiates the bounded-range part on the second
worked example. -/
theorem C3_read_planner_grouping_witness :
    ∀ g ∈ groupRanges [RItem.mk 1 1 "a", ⟨2, 2, "b"⟩, ⟨3, 3, "c"⟩, ⟨4, 4, "d"⟩] 3,
      g.2.1 - g.1 + 1 ≤ 3 :=
  C3_read_planner_grouping.2.1 String _ 3 (by decide)

/-! ## Entities and read specs: `_iter_reg_entities` (`src/coordinator.py:269-306`) -/

/-- The relevant fields of an entity's `read` dict as `_iter_reg_entities`
extracts them.  `none` in `typ`/`dataType`/`wordOrder` models an absent
key (the code then applies `str(r.get(..., default))`; `str()` of any
present value is some string, so quantifying over arbitrary strings
covers every document).  `address` is `some a` exactly when
`int(r["address"])` succeeds with `a` (a missing key and an unparsable
value both raise and are collapsed to `none`); `scale`/`bit` are `some`
exactly when present and parsable (the code turns a parse failure into
`None` itself). -/
structure ReadDict where
  typ : Option String := none
  address : Option Int := none
  dataType : Option String := none
  wordOrder : Option String := none
  scale : Option ℚ := none
  bit : Option Int := none
deriving DecidableEq, Repr

/-- An entity's `read` attribute: `falsy` models `None` (or any falsy
value, e.g. an empty dict), `notDict` a truthy non-dict value, `dict` a
truthy dict (the code skips the entity unless
`r and isinstance(r, dict)`). -/
inductive ReadSection where
  | falsy
  | notDict
  | dict (d : ReadDict)
deriving DecidableEq, Repr

/-- The slice of `MappedEntity` the read path uses. -/
structure MEntity where
  platform : String
  key : String
  readSec : ReadSection
deriving DecidableEq, Repr

/-- A normalized read spec, one tuple of the list `_iter_reg_entities`
returns: `(ent, reg_type, address, dtype, word_order, scale, bit, width)`
(the entity is represented by its key, the only entity field the read
path consumes). -/
structure RSpec where
  key : String
  regType : String
  addr : Int
  dtype : String
  wordOrder : String
  scale : Option ℚ
  bit : Option Int
  width : Nat
deriving DecidableEq, Repr

/-- Python `s.endswith(suffix)`, computed on the character lists. -/
def strEndsWith (s suffix : String) : Bool :=
  s.data.reverse.take suffix.data.length == suffix.data.reverse

/-- Embedding of `_iter_reg_entities` (`src/coordinator.py:269-306`):
skip entities without a truthy dict `read`; take
`reg_type = str(r.get("type", "holding"))` and skip unknown kinds; skip
when `int(r["address"])` fails; width is 2 for data types ending in
`"32"`, else 1. -/
def iterRegEntities (ents : List MEntity) : List RSpec :=
  ents.filterMap fun ent =>
    match ent.readSec with
    | .dict d =>
      let regType := d.typ.getD "holding"
      if regType = "holding" ∨ regType = "input" ∨ regType = "coil" ∨ regType = "discrete" then
        match d.address with
        | some addr =>
          let dtype := d.dataType.getD "uint16"
          some { key := ent.key, regType := regType, addr := addr, dtype := dtype,
                 wordOrder := d.wordOrder.getD "AB", scale := d.scale, bit := d.bit,
                 width := if strEndsWith dtype "32" then 2 else 1 }
        | none => none
      else none
    | _ => none

/-! ## Decoding one entity from registers (`src/coordinator.py:386-397` and `421-430`) -/

/-- `float(val) * float(scale)` on a decoded value, with IEEE semantics
for the special values (`inf * 0 = nan`, sign follows the scale). -/
def scaleMul (s : ℚ) : Value → Value
  | .int n => .float ((n : ℚ) * s)
  | .float q => .float (q * s)
  | .inf neg => if s = 0 then .nan else if s < 0 then .inf (!neg) else .inf neg
  | .nan => .nan
  | .bool b => .float ((if b then 1 else 0) * s)

/-- `if scale is not None: val = float(val) * float(scale)`. -/
def applyScale (scale : Option ℚ) (v : Value) : Value :=
  match scale with
  | some s => scaleMul s v
  | none => v

/-- Python list indexing `xs[i]` (negative indices count from the end;
out of range raises, modelled as `none`). -/
def pyIndex (xs : List α) (i : Int) : Option α :=
  let j := if i < 0 then i + xs.length else i
  if j < 0 then none else xs.get? j.toNat

/-- Clamp one bound of a Python slice `xs[a:b]` to `[0, len]`. -/
def pySliceIdx (len : Nat) (i : Int) : Nat :=
  if i < 0 then ((len : Int) + i).toNat else min i.toNat len

/-- Python list slicing `xs[a:b]` (step 1), with Python's clamping. -/
def pySlice (xs : List α) (a b : Int) : List α :=
  (xs.take (pySliceIdx xs.length b)).drop (pySliceIdx xs.length a)

/-- Per-entity decode in the batch path (`src/coordinator.py:390-396`):
bit extraction from the first register overrides data-type decoding and
scaling; `none` models a per-entity decode exception (caught, entity
set to `None`).  A negative `bit` makes `raw16 >> bit` raise. -/
def decodeEntitySlice (sp : RSpec) (regs : List Nat) : Option Value :=
  match sp.bit with
  | some b =>
    match regs.get? 0 with
    | some r0 =>
      if b < 0 then none
      else some (.bool ((((r0 % 65536) >>> b.toNat) &&& 1) == 1))
    | none => none
  | none => (decode16_32 sp.dtype regs sp.wordOrder).map (applyScale sp.scale)

/-- Per-entity decode in the individual-fallback path
(`src/coordinator.py:422-428`) - textually the same logic as the batch
path, applied to the registers of the entity's own read. -/
def decodeEntityIndiv (sp : RSpec) (regs : List Nat) : Option Value :=
  match sp.bit with
  | some b =>
    match regs.get? 0 with
    | some r0 =>
      if b < 0 then none
      else some (.bool ((((r0 % 65536) >>> b.toNat) &&& 1) == 1))
    | none => none
  | none => (decode16_32 sp.dtype regs sp.wordOrder).map (applyScale sp.scale)

/-! ## The poll cycle: `_read_all` (`src/coordinator.py:337-512`) -/

/-- The link driver as the read cycle sees it: each primitive takes
`(address, count)` and yields the registers/bits, or `none` when the
call raises or the response `isError()` (both paths raise in the code). -/
structure Oracle where
  readHolding : Int → Int → Option (List Nat)
  readInput : Int → Int → Option (List Nat)
  readCoils : Int → Int → Option (List Bool)
  readDiscrete : Int → Int → Option (List Bool)

/-- `MAX_REGS_PER_READ` (`src/coordinator.py:21`). -/
def maxRegsPerRead : Int := 60

/-- `MAX_BITS_PER_READ` (`src/coordinator.py:22`). -/
def maxBitsPerRead : Int := 200

/-- The `(start, end, payload)` items built for holding/input specs:
`start = addr`, `end = addr + width - 1`.  The code first filters specs
to the register kinds and then skips other kinds inside the loop;
filtering directly by `regType = rt` is the same selection. -/
def regItems (specs : List RSpec) (rt : String) : List (RItem RSpec) :=
  (specs.filter fun sp => sp.regType = rt).map fun sp =>
    ⟨sp.addr, sp.addr + sp.width - 1, sp⟩

/-- The `(addr, addr, payload)` items built for coil/discrete specs
(bit-addressed; width irrelevant). -/
def bitItems (specs : List RSpec) (rt : String) : List (RItem RSpec) :=
  (specs.filter fun sp => sp.regType = rt).map fun sp => ⟨sp.addr, sp.addr, sp⟩

/-- The planned ranges for a register kind. -/
def regRanges (specs : List RSpec) (rt : String) : List (Int × Int × List RSpec) :=
  groupRanges (regItems specs rt) maxRegsPerRead

/-- The planned ranges for a bit kind. -/
def bitRanges (specs : List RSpec) (rt : String) : List (Int × Int × List RSpec) :=
  groupRanges (bitItems specs rt) maxBitsPerRead

/-- One planned register range (`src/coordinator.py:357-438`): try the
batch read; on success decode every entity from its slice of the single
response buffer; on failure fall back to one individual read per
entity.  Returns the `data[ent.key] = ...` assignments in order. -/
def processRegRange (rd : Int → Int → Option (List Nat)) (g : Int × Int × List RSpec) :
    List (String × Option Value) :=
  match rd g.1 (g.2.1 - g.1 + 1) with
  | some regs =>
    g.2.2.map fun sp =>
      let off := sp.addr - g.1
      (sp.key, decodeEntitySlice sp (pySlice regs off (off + sp.width)))
  | none =>
    g.2.2.map fun sp =>
      (sp.key, (rd sp.addr sp.width).bind fun regs1 => decodeEntityIndiv sp regs1)

/-- One planned coil/discrete range (`src/coordinator.py:449-510`). -/
def processBitRange (rd : Int → Int → Option (List Bool)) (g : Int × Int × List RSpec) :
    List (String × Option Value) :=
  match rd g.1 (g.2.1 - g.1 + 1) with
  | some bits =>
    g.2.2.map fun sp => (sp.key, (pyIndex bits (sp.addr - g.1)).map .bool)
  | none =>
    g.2.2.map fun sp =>
      (sp.key, (rd sp.addr 1).bind fun bits1 => (bits1.get? 0).map .bool)

/-- The snapshot: the Python dict `data`, an insertion-ordered
association list with unique keys. -/
abbrev Snapshot := List (String × Option Value)

/-- `data[k] = v`: replace in place at the first (and, for a dict,
only) occurrence of the key, else append.  On the unique-key lists a
Python dict is, this is exactly dict assignment. -/
def dictSet : Snapshot → String → Option Value → Snapshot
  | [], k, v => [(k, v)]
  | kv :: m, k, v => if kv.1 = k then (k, v) :: m else kv :: dictSet m k v

/-- Apply a list of assignments in order. -/
def applyUpdates (d : Snapshot) (ups : List (String × Option Value)) : Snapshot :=
  ups.foldl (fun d kv => dictSet d kv.1 kv.2) d

/-- Embedding of `_read_all` (`src/coordinator.py:337-512`): process
holding, input, coil and discrete ranges in that order, assigning each
entity's decoded value (or `None`) into the fresh snapshot dict. -/
def readAll (o : Oracle) (ents : List MEntity) : Snapshot :=
  let specs := iterRegEntities ents
  let d0 : Snapshot := []
  let d1 := (regRanges specs "holding").foldl
    (fun d g => applyUpdates d (processRegRange o.readHolding g)) d0
  let d2 := (regRanges specs "input").foldl
    (fun d g => applyUpdates d (processRegRange o.readInput g)) d1
  let d3 := (bitRanges specs "coil").foldl
    (fun d g => applyUpdates d (processBitRange o.readCoils g)) d2
  (bitRanges specs "discrete").foldl
    (fun d g => applyUpdates d (processBitRange o.readDiscrete g)) d3

/-! ## Snapshot dictionary lemmas -/

theorem lookup_dictSet_self (m : Snapshot) (k : String) (v : Option Value) :
    (dictSet m k v).lookup k = some v := by
  induction m with
  | nil => simp [dictSet, List.lookup]
  | cons kv m ih =>
    rw [dictSet]
    by_cases hk : kv.1 = k
    · simp [hk, List.lookup]
    · simp only [hk, if_neg, not_false_iff]
      rw [List.lookup]
      have hb : (k == kv.1) = false := by
        simp only [beq_eq_false_iff_ne, ne_eq]
        exact fun h => hk h.symm
      simp [hb, ih]

theorem lookup_dictSet_other (m : Snapshot) (k k' : String) (v : Option Value)
    (hne : k' ≠ k) : (dictSet m k v).lookup k' = m.lookup k' := by
  induction m with
  | nil =>
    have h1 : (k' == k) = false := by simp [hne]
    simp [dictSet, List.lookup, h1]
  | cons kv m ih =>
    rw [dictSet]
    by_cases hk : kv.1 = k
    · simp only [hk, if_pos]
      rw [List.lookup, List.lookup]
      have h1 : (k' == k) = false := by simp [hne]
      simp [h1, hk]
    · simp only [hk, if_neg, not_false_iff]
      rw [List.lookup, List.lookup]
      cases hb : k' == kv.1 <;> simp [ih]

theorem lookup_applyUpdates_not_mem (d : Snapshot) (ups : List (String × Option Value))
    (k : String) (h : k ∉ ups.map (·.1)) :
    (applyUpdates d ups).lookup k = d.lookup k := by
  induction ups generalizing d with
  | nil => rfl
  | cons u ups ih =>
    simp only [List.map_cons, List.mem_cons, not_or] at h
    rw [applyUpdates, List.foldl_cons]
    have := ih (dictSet d u.1 u.2) h.2
    rw [applyUpdates] at this
    rw [this, lookup_dictSet_other _ _ _ _ h.1]

theorem lookup_applyUpdates_of_mem (d : Snapshot) (ups : List (String × Option Value))
    (k : String) (v : Option Value) (hn : (ups.map (·.1)).Nodup) (hm : (k, v) ∈ ups) :
    (applyUpdates d ups).lookup k = some v := by
  induction ups generalizing d with
  | nil => simp at hm
  | cons u ups ih =>
    simp only [List.map_cons, List.nodup_cons] at hn
    rw [applyUpdates, List.foldl_cons]
    rcases List.mem_cons.mp hm with rfl | hm'
    · have hnot : k ∉ ups.map (·.1) := by simpa using hn.1
      have := lookup_applyUpdates_not_mem (dictSet d k v) ups k hnot
      rw [applyUpdates] at this
      rw [this, lookup_dictSet_self]
    · exact ih _ hn.2 hm'

theorem mem_keys_dictSet (m : Snapshot) (k k' : String) (v : Option Value) :
    k' ∈ (dictSet m k v).map (·.1) ↔ k' = k ∨ k' ∈ m.map (·.1) := by
  induction m with
  | nil => simp [dictSet]
  | cons kv m ih =>
    rw [dictSet]
    by_cases hk : kv.1 = k
    · simp [hk]
    · simp only [hk, if_neg, not_false_iff, List.map_cons, List.mem_cons, ih]
      tauto

theorem mem_keys_applyUpdates (d : Snapshot) (ups : List (String × Option Value))
    (k : String) :
    k ∈ (applyUpdates d ups).map (·.1) ↔ k ∈ d.map (·.1) ∨ k ∈ ups.map (·.1) := by
  induction ups generalizing d with
  | nil => simp [applyUpdates]
  | cons u ups ih =>
    rw [applyUpdates, List.foldl_cons]
    have := ih (dictSet d u.1 u.2)
    rw [applyUpdates] at this
    rw [this, mem_keys_dictSet]
    simp only [List.map_cons, List.mem_cons]
    tauto

/-! ## `_read_all` as one flat assignment list -/

theorem applyUpdates_append (d : Snapshot) (u1 u2 : List (String × Option Value)) :
    applyUpdates d (u1 ++ u2) = applyUpdates (applyUpdates d u1) u2 := by
  simp [applyUpdates, List.foldl_append]

theorem foldl_ranges {γ : Type} (f : γ → List (String × Option Value)) (rs : List γ)
    (d : Snapshot) :
    rs.foldl (fun d g => applyUpdates d (f g)) d = applyUpdates d ((rs.map f).flatten) := by
  induction rs generalizing d with
  | nil => simp [applyUpdates]
  | cons g rs ih => simp [ih, applyUpdates_append]

/-- All assignments of one poll cycle, flattened in execution order. -/
def updatesFor (o : Oracle) (specs : List RSpec) : List (String × Option Value) :=
  ((regRanges specs "holding").map (processRegRange o.readHolding)).flatten
  ++ ((regRanges specs "input").map (processRegRange o.readInput)).flatten
  ++ ((bitRanges specs "coil").map (processBitRange o.readCoils)).flatten
  ++ ((bitRanges specs "discrete").map (processBitRange o.readDiscrete)).flatten

theorem readAll_eq_updates (o : Oracle) (ents : List MEntity) :
    readAll o ents = applyUpdates [] (updatesFor o (iterRegEntities ents)) := by
  unfold readAll updatesFor
  rw [foldl_ranges, foldl_ranges, foldl_ranges, foldl_ranges,
    applyUpdates_append, applyUpdates_append, applyUpdates_append]

theorem keys_processRegRange (rd : Int → Int → Option (List Nat))
    (g : Int × Int × List RSpec) :
    (processRegRange rd g).map (·.1) = g.2.2.map (·.key) := by
  unfold processRegRange
  cases rd g.1 (g.2.1 - g.1 + 1) <;> simp [List.map_map, Function.comp]

theorem keys_processBitRange (rd : Int → Int → Option (List Bool))
    (g : Int × Int × List RSpec) :
    (processBitRange rd g).map (·.1) = g.2.2.map (·.key) := by
  unfold processBitRange
  cases rd g.1 (g.2.1 - g.1 + 1) <;> simp [List.map_map, Function.comp]

/-- The payloads a register stage processes are exactly the specs of
that kind, up to the sort's permutation. -/
theorem regStage_payload_perm (specs : List RSpec) (rt : String) :
    (((regRanges specs rt).map fun g => g.2.2).flatten).Perm
      (specs.filter fun sp => sp.regType = rt) := by
  rw [regRanges, groupRanges_join]
  have h1 : ((sortByStart (regItems specs rt)).map (·.payload)).Perm
      ((regItems specs rt).map (·.payload)) := (sortByStart_perm _).map _
  have hcomp : ((fun x : RItem RSpec => x.payload)
      ∘ fun sp : RSpec => (⟨sp.addr, sp.addr + (sp.width : Int) - 1, sp⟩ : RItem RSpec)) = id := rfl
  have h2 : (regItems specs rt).map (·.payload) = specs.filter fun sp => sp.regType = rt := by
    simp [regItems, List.map_map, hcomp]
  rw [h2] at h1
  exact h1

theorem bitStage_payload_perm (specs : List RSpec) (rt : String) :
    (((bitRanges specs rt).map fun g => g.2.2).flatten).Perm
      (specs.filter fun sp => sp.regType = rt) := by
  rw [bitRanges, groupRanges_join]
  have h1 : ((sortByStart (bitItems specs rt)).map (·.payload)).Perm
      ((bitItems specs rt).map (·.payload)) := (sortByStart_perm _).map _
  have hcomp : ((fun x : RItem RSpec => x.payload)
      ∘ fun sp : RSpec => (⟨sp.addr, sp.addr, sp⟩ : RItem RSpec)) = id := rfl
  have h2 : (bitItems specs rt).map (·.payload) = specs.filter fun sp => sp.regType = rt := by
    simp [bitItems, List.map_map, hcomp]
  rw [h2] at h1
  exact h1

/-- Every produced spec has one of the four register kinds. -/
theorem iter_regType (ents : List MEntity) :
    ∀ sp ∈ iterRegEntities ents,
      sp.regType = "holding" ∨ sp.regType = "input"
      ∨ sp.regType = "coil" ∨ sp.regType = "discrete" := by
  intro sp hsp
  rw [iterRegEntities, List.mem_filterMap] at hsp
  obtain ⟨ent, _, hf⟩ := hsp
  rcases hsec : ent.readSec with _ | _ | d <;> rw [hsec] at hf
  · simp at hf
  · simp at hf
  · simp only at hf
    split at hf
    · rename_i hcond
      rcases haddr : d.address with _ | addr <;> rw [haddr] at hf
      · simp at hf
      · simp only [Option.some_inj] at hf
        subst hf
        simpa using hcond
    · simp at hf

/-- Splitting a list into the four kind filters is a permutation, given
every element has one of the four kinds. -/
theorem filter_four_perm (specs : List RSpec)
    (h4 : ∀ sp ∈ specs, sp.regType = "holding" ∨ sp.regType = "input"
      ∨ sp.regType = "coil" ∨ sp.regType = "discrete") :
    ((specs.filter fun sp => sp.regType = "holding")
      ++ (specs.filter fun sp => sp.regType = "input")
      ++ (specs.filter fun sp => sp.regType = "coil")
      ++ (specs.filter fun sp => sp.regType = "discrete")).Perm specs := by
  induction specs with
  | nil => simp
  | cons sp specs ih =>
    have ih' := ih fun q hq => h4 q (List.mem_cons_of_mem _ hq)
    simp only [List.append_assoc] at ih'
    rcases h4 sp (List.mem_cons_self _ _) with h | h | h | h
    · simp only [List.filter_cons, h]
      simp only [List.append_assoc, List.cons_append]
      simp
      exact ih'
    · simp only [List.filter_cons, h]
      simp only [List.append_assoc, List.cons_append]
      simp
      exact List.Perm.trans List.perm_middle (ih'.cons sp)
    · simp only [List.filter_cons, h]
      simp only [List.append_assoc, List.cons_append]
      simp
      refine List.Perm.trans (List.Perm.append_left _ List.perm_middle) ?_
      exact List.Perm.trans List.perm_middle (ih'.cons sp)
    · simp only [List.filter_cons, h]
      simp only [List.append_assoc, List.cons_append]
      simp
      refine List.Perm.trans
        (List.Perm.append_left _ (List.Perm.append_left _ List.perm_middle)) ?_
      refine List.Perm.trans (List.Perm.append_left _ List.perm_middle) ?_
      exact List.Perm.trans List.perm_middle (ih'.cons sp)


/-! ## C10: the snapshot key set -/

/-- The claim's planning condition, stated from the claim's words: the
entity's read section is a mapping whose register type (after the
`holding` default) is one of the four kinds and whose address parses as
an integer. -/
def plannedEnt (ent : MEntity) : Prop :=
  ∃ d, ent.readSec = .dict d
    ∧ (d.typ.getD "holding" = "holding" ∨ d.typ.getD "holding" = "input"
       ∨ d.typ.getD "holding" = "coil" ∨ d.typ.getD "holding" = "discrete")
    ∧ d.address.isSome

/-- A key appears among the produced specs iff some entity with that
key satisfies the planning condition. -/
theorem iter_key_iff (ents : List MEntity) (k : String) :
    (∃ sp ∈ iterRegEntities ents, sp.key = k)
      ↔ ∃ ent ∈ ents, plannedEnt ent ∧ ent.key = k := by
  constructor
  · rintro ⟨sp, hsp, rfl⟩
    rw [iterRegEntities, List.mem_filterMap] at hsp
    obtain ⟨ent, hent, hf⟩ := hsp
    rcases hsec : ent.readSec with _ | _ | d <;> rw [hsec] at hf
    · simp at hf
    · simp at hf
    · simp only at hf
      split at hf
      · rename_i hcond
        rcases haddr : d.address with _ | addr <;> rw [haddr] at hf
        · simp at hf
        · simp only [Option.some_inj] at hf
          refine ⟨ent, hent, ⟨d, hsec, (by simpa using hcond), (by simp [haddr])⟩, ?_⟩
          rw [← hf]
      · simp at hf
  · rintro ⟨ent, hent, ⟨d, hsec, hcond, haddr⟩, rfl⟩
    rcases hval : d.address with _ | addr
    · rw [hval] at haddr; simp at haddr
    · refine ⟨{ key := ent.key, regType := d.typ.getD "holding", addr := addr,
                dtype := d.dataType.getD "uint16", wordOrder := d.wordOrder.getD "AB",
                scale := d.scale, bit := d.bit,
                width := if strEndsWith (d.dataType.getD "uint16") "32" then 2 else 1 },
        ?_, rfl⟩
      rw [iterRegEntities, List.mem_filterMap]
      refine ⟨ent, hent, ?_⟩
      rw [hsec]
      simp only
      rw [if_pos (by simpa using hcond), hval]

/-- Mapping the flattened per-range assignment lists to their keys. -/
theorem flatten_keys {γ : Type} (f : γ → List (String × Option Value))
    (kf : γ → List String) (h : ∀ g, (f g).map (·.1) = kf g) (L : List γ) :
    ((L.map f).flatten).map (·.1) = (L.map kf).flatten := by
  induction L with
  | nil => simp
  | cons g L ih => simp [h, ih]

theorem map_flatten_eq {β γ : Type} (f : β → γ) (L : List (List β)) :
    (L.flatten).map f = (L.map (List.map f)).flatten := by
  induction L with
  | nil => simp
  | cons l L ih => simp [ih]

/-- The assignment keys of one cycle are a permutation of the planned
spec keys. -/
theorem keys_updatesFor_perm (o : Oracle) (ents : List MEntity) :
    ((updatesFor o (iterRegEntities ents)).map (·.1)).Perm
      ((iterRegEntities ents).map (·.key)) := by
  set specs := iterRegEntities ents with hspecs
  have hstage : ∀ (rt : String) (rd : Int → Int → Option (List Nat)),
      ((((regRanges specs rt).map (processRegRange rd)).flatten).map (·.1)).Perm
        ((specs.filter fun sp => sp.regType = rt).map (·.key)) := by
    intro rt rd
    have e1 : (((regRanges specs rt).map (processRegRange rd)).flatten).map (·.1)
        = ((regRanges specs rt).map fun g => g.2.2.map (·.key)).flatten :=
      flatten_keys _ _ (keys_processRegRange rd) _
    have e2 : (((regRanges specs rt).map fun g => g.2.2).flatten).map (·.key)
        = ((regRanges specs rt).map fun g => g.2.2.map (·.key)).flatten := by
      rw [map_flatten_eq, List.map_map]
      rfl
    rw [e1, ← e2]
    exact (regStage_payload_perm specs rt).map _
  have hbitstage : ∀ (rt : String) (rd : Int → Int → Option (List Bool)),
      ((((bitRanges specs rt).map (processBitRange rd)).flatten).map (·.1)).Perm
        ((specs.filter fun sp => sp.regType = rt).map (·.key)) := by
    intro rt rd
    have e1 : (((bitRanges specs rt).map (processBitRange rd)).flatten).map (·.1)
        = ((bitRanges specs rt).map fun g => g.2.2.map (·.key)).flatten :=
      flatten_keys _ _ (keys_processBitRange rd) _
    have e2 : (((bitRanges specs rt).map fun g => g.2.2).flatten).map (·.key)
        = ((bitRanges specs rt).map fun g => g.2.2.map (·.key)).flatten := by
      rw [map_flatten_eq, List.map_map]
      rfl
    rw [e1, ← e2]
    exact (bitStage_payload_perm specs rt).map _
  have hfour := (filter_four_perm specs (iter_regType ents)).map (·.key)
  simp only [List.map_append] at hfour
  rw [updatesFor]
  simp only [List.map_append]
  refine List.Perm.trans ?_ hfour
  exact (((hstage "holding" o.readHolding).append (hstage "input" o.readInput)).append
    (hbitstage "coil" o.readCoils)).append (hbitstage "discrete" o.readDiscrete)

/-- C10: after a completed read cycle the snapshot's key set is exactly
the keys of entities whose read section is a mapping with a register
type among holding/input/coil/discrete and an integer-parsable address;
all other entities (no read section, non-mapping read section, unknown
type, unparsable address) never appear, not even as null. -/
theorem C10_snapshot_key_set (o : Oracle) (ents : List MEntity) (k : String) :
    k ∈ (readAll o ents).map (·.1) ↔ ∃ ent ∈ ents, plannedEnt ent ∧ ent.key = k := by
  rw [readAll_eq_updates, mem_keys_applyUpdates]
  simp only [List.map_nil, List.not_mem_nil, false_or]
  rw [(keys_updatesFor_perm o ents).mem_iff]
  rw [← iter_key_iff]
  simp only [List.mem_map]


/-! ## Pointwise characterisation of the snapshot -/

/-- `find?` returns the unique element satisfying the predicate. -/
theorem find_eq_some_of_unique {β : Type} {p : β → Bool} {l : List β} {x : β}
    (hx : x ∈ l) (hpx : p x = true) (huniq : ∀ y ∈ l, p y = true → y = x) :
    l.find? p = some x := by
  induction l with
  | nil => simp at hx
  | cons y l ih =>
    rw [List.find?]
    rcases List.mem_cons.mp hx with rfl | hx'
    · simp [hpx]
    · cases hp : p y
      · simp only
        exact ih hx' fun z hz hpz => huniq z (List.mem_cons_of_mem _ hz) hpz
      · have := huniq y (List.mem_cons_self _ _) hp
        subst this
        simp

/-- If a payload occurs at most once across all groups, the group
containing it is unique. -/
theorem ranges_disjoint {β : Type} [DecidableEq β] (rs : List (Int × Int × List β)) (x : β)
    (h : (((rs.map fun g => g.2.2).flatten).count x) ≤ 1) :
    ∀ g1 ∈ rs, ∀ g2 ∈ rs, x ∈ g1.2.2 → x ∈ g2.2.2 → g1 = g2 := by
  induction rs with
  | nil => intro g1 hg1; simp at hg1
  | cons g rs ih =>
    intro g1 hg1 g2 hg2 hx1 hx2
    simp only [List.map_cons, List.flatten_cons, List.count_append] at h
    rcases List.mem_cons.mp hg1 with rfl | hg1' <;> rcases List.mem_cons.mp hg2 with rfl | hg2'
    · rfl
    · exfalso
      have c1 : 0 < g1.2.2.count x := List.count_pos_iff.mpr hx1
      have c2 : 0 < ((rs.map fun g => g.2.2).flatten).count x :=
        List.count_pos_iff.mpr
          (List.mem_flatten.mpr ⟨g2.2.2, List.mem_map.mpr ⟨g2, hg2', rfl⟩, hx2⟩)
      omega
    · exfalso
      have c1 : 0 < g2.2.2.count x := List.count_pos_iff.mpr hx2
      have c2 : 0 < ((rs.map fun g => g.2.2).flatten).count x :=
        List.count_pos_iff.mpr
          (List.mem_flatten.mpr ⟨g1.2.2, List.mem_map.mpr ⟨g1, hg1', rfl⟩, hx1⟩)
      omega
    · exact ih (by omega) g1 hg1' g2 hg2' hx1 hx2

/-- The value a register range assigns to one of its entities: decode
from the batch buffer's slice when the batch read succeeded, else the
result of the entity's individual read. -/
def rangeRegOutcome (rd : Int → Int → Option (List Nat)) (g : Int × Int × List RSpec)
    (sp : RSpec) : Option Value :=
  match rd g.1 (g.2.1 - g.1 + 1) with
  | some regs => decodeEntitySlice sp (pySlice regs (sp.addr - g.1) (sp.addr - g.1 + sp.width))
  | none => (rd sp.addr sp.width).bind fun regs1 => decodeEntityIndiv sp regs1

/-- The value a bit range assigns to one of its entities. -/
def rangeBitOutcome (rd : Int → Int → Option (List Bool)) (g : Int × Int × List RSpec)
    (sp : RSpec) : Option Value :=
  match rd g.1 (g.2.1 - g.1 + 1) with
  | some bits => (pyIndex bits (sp.addr - g.1)).map .bool
  | none => (rd sp.addr 1).bind fun bits1 => (bits1.get? 0).map .bool

theorem processRegRange_eq_map (rd : Int → Int → Option (List Nat))
    (g : Int × Int × List RSpec) :
    processRegRange rd g = g.2.2.map fun sp => (sp.key, rangeRegOutcome rd g sp) := by
  unfold processRegRange rangeRegOutcome
  cases rd g.1 (g.2.1 - g.1 + 1) <;> simp

theorem processBitRange_eq_map (rd : Int → Int → Option (List Bool))
    (g : Int × Int × List RSpec) :
    processBitRange rd g = g.2.2.map fun sp => (sp.key, rangeBitOutcome rd g sp) := by
  unfold processBitRange rangeBitOutcome
  cases rd g.1 (g.2.1 - g.1 + 1) <;> simp

/-- A payload of a planned register range is a planned spec of that kind. -/
theorem regRange_payload_mem (specs : List RSpec) (rt : String)
    (g : Int × Int × List RSpec) (hg : g ∈ regRanges specs rt)
    (sp : RSpec) (hsp : sp ∈ g.2.2) : sp ∈ specs ∧ sp.regType = rt := by
  have h1 : sp ∈ ((regRanges specs rt).map fun g => g.2.2).flatten :=
    List.mem_flatten.mpr ⟨g.2.2, List.mem_map.mpr ⟨g, hg, rfl⟩, hsp⟩
  have h2 := (regStage_payload_perm specs rt).mem_iff.mp h1
  have h3 := List.mem_filter.mp h2
  exact ⟨h3.1, by simpa using h3.2⟩

theorem bitRange_payload_mem (specs : List RSpec) (rt : String)
    (g : Int × Int × List RSpec) (hg : g ∈ bitRanges specs rt)
    (sp : RSpec) (hsp : sp ∈ g.2.2) : sp ∈ specs ∧ sp.regType = rt := by
  have h1 : sp ∈ ((bitRanges specs rt).map fun g => g.2.2).flatten :=
    List.mem_flatten.mpr ⟨g.2.2, List.mem_map.mpr ⟨g, hg, rfl⟩, hsp⟩
  have h2 := (bitStage_payload_perm specs rt).mem_iff.mp h1
  have h3 := List.mem_filter.mp h2
  exact ⟨h3.1, by simpa using h3.2⟩

/-- With distinct specs, the planned register range holding a given
spec is unique and `find?` locates it. -/
theorem regRange_find (specs : List RSpec) (rt : String) (hnodup : specs.Nodup)
    (g : Int × Int × List RSpec) (hg : g ∈ regRanges specs rt)
    (sp : RSpec) (hsp : sp ∈ g.2.2) :
    (regRanges specs rt).find? (fun g' => decide (sp ∈ g'.2.2)) = some g := by
  have hmem := regRange_payload_mem specs rt g hg sp hsp
  have hcount : (((regRanges specs rt).map fun g => g.2.2).flatten).count sp ≤ 1 := by
    rw [(regStage_payload_perm specs rt).count_eq]
    calc ((specs.filter fun q => q.regType = rt).count sp)
        ≤ specs.count sp := (List.filter_sublist specs).count_le sp
      _ = 1 := List.count_eq_one_of_mem hnodup hmem.1
  exact find_eq_some_of_unique hg (by simpa using hsp)
    fun y hy hpy => ranges_disjoint _ sp hcount y hy g hg (by simpa using hpy) hsp

theorem bitRange_find (specs : List RSpec) (rt : String) (hnodup : specs.Nodup)
    (g : Int × Int × List RSpec) (hg : g ∈ bitRanges specs rt)
    (sp : RSpec) (hsp : sp ∈ g.2.2) :
    (bitRanges specs rt).find? (fun g' => decide (sp ∈ g'.2.2)) = some g := by
  have hmem := bitRange_payload_mem specs rt g hg sp hsp
  have hcount : (((bitRanges specs rt).map fun g => g.2.2).flatten).count sp ≤ 1 := by
    rw [(bitStage_payload_perm specs rt).count_eq]
    calc ((specs.filter fun q => q.regType = rt).count sp)
        ≤ specs.count sp := (List.filter_sublist specs).count_le sp
      _ = 1 := List.count_eq_one_of_mem hnodup hmem.1
  exact find_eq_some_of_unique hg (by simpa using hsp)
    fun y hy hpy => ranges_disjoint _ sp hcount y hy g hg (by simpa using hpy) hsp

/-- The value one poll cycle assigns to a planned spec, as a function of
the link driver: locate the spec's unique planned range of its register
kind and take that range's outcome for it. -/
def specOutcome (o : Oracle) (specs : List RSpec) (sp : RSpec) : Option Value :=
  if sp.regType = "holding" then
    match (regRanges specs "holding").find? (fun g => decide (sp ∈ g.2.2)) with
    | some g => rangeRegOutcome o.readHolding g sp
    | none => none
  else if sp.regType = "input" then
    match (regRanges specs "input").find? (fun g => decide (sp ∈ g.2.2)) with
    | some g => rangeRegOutcome o.readInput g sp
    | none => none
  else if sp.regType = "coil" then
    match (bitRanges specs "coil").find? (fun g => decide (sp ∈ g.2.2)) with
    | some g => rangeBitOutcome o.readCoils g sp
    | none => none
  else
    match (bitRanges specs "discrete").find? (fun g => decide (sp ∈ g.2.2)) with
    | some g => rangeBitOutcome o.readDiscrete g sp
    | none => none


/-- Central pointwise lemma: with distinct entity keys, the completed
snapshot maps each planned spec's key to exactly that spec's outcome in
its own planned range. -/
theorem snapshot_lookup (o : Oracle) (ents : List MEntity)
    (hkeys : ((iterRegEntities ents).map (·.key)).Nodup)
    (sp : RSpec) (hsp : sp ∈ iterRegEntities ents) :
    (readAll o ents).lookup sp.key = some (specOutcome o (iterRegEntities ents) sp) := by
  have hnodup : (iterRegEntities ents).Nodup := List.Nodup.of_map _ hkeys
  have hnodupU : ((updatesFor o (iterRegEntities ents)).map (·.1)).Nodup :=
    (keys_updatesFor_perm o ents).nodup_iff.mpr hkeys
  rw [readAll_eq_updates]
  rcases iter_regType ents sp hsp with hrt | hrt | hrt | hrt
  · -- holding
    have hfil : sp ∈ (iterRegEntities ents).filter fun q => q.regType = "holding" :=
      List.mem_filter.mpr ⟨hsp, by simp [hrt]⟩
    have hflat := (regStage_payload_perm (iterRegEntities ents) "holding").mem_iff.mpr hfil
    obtain ⟨pl, hpl, hsppl⟩ := List.mem_flatten.mp hflat
    obtain ⟨g, hg, rfl⟩ := List.mem_map.mp hpl
    have hfind := regRange_find (iterRegEntities ents) "holding" hnodup g hg sp hsppl
    have hout : specOutcome o (iterRegEntities ents) sp
        = rangeRegOutcome o.readHolding g sp := by
      rw [specOutcome, if_pos hrt, hfind]
    rw [hout]
    refine lookup_applyUpdates_of_mem _ _ _ _ hnodupU ?_
    rw [updatesFor]
    refine List.mem_append_left _ (List.mem_append_left _ (List.mem_append_left _ ?_))
    refine List.mem_flatten.mpr
      ⟨processRegRange o.readHolding g, List.mem_map.mpr ⟨g, hg, rfl⟩, ?_⟩
    rw [processRegRange_eq_map]
    exact List.mem_map.mpr ⟨sp, hsppl, rfl⟩
  · -- input
    have hfil : sp ∈ (iterRegEntities ents).filter fun q => q.regType = "input" :=
      List.mem_filter.mpr ⟨hsp, by simp [hrt]⟩
    have hflat := (regStage_payload_perm (iterRegEntities ents) "input").mem_iff.mpr hfil
    obtain ⟨pl, hpl, hsppl⟩ := List.mem_flatten.mp hflat
    obtain ⟨g, hg, rfl⟩ := List.mem_map.mp hpl
    have hfind := regRange_find (iterRegEntities ents) "input" hnodup g hg sp hsppl
    have hout : specOutcome o (iterRegEntities ents) sp
        = rangeRegOutcome o.readInput g sp := by
      rw [specOutcome, if_neg (by rw [hrt]; decide), if_pos hrt, hfind]
    rw [hout]
    refine lookup_applyUpdates_of_mem _ _ _ _ hnodupU ?_
    rw [updatesFor]
    refine List.mem_append_left _ (List.mem_append_left _ (List.mem_append_right _ ?_))
    refine List.mem_flatten.mpr
      ⟨processRegRange o.readInput g, List.mem_map.mpr ⟨g, hg, rfl⟩, ?_⟩
    rw [processRegRange_eq_map]
    exact List.mem_map.mpr ⟨sp, hsppl, rfl⟩
  · -- coil
    have hfil : sp ∈ (iterRegEntities ents).filter fun q => q.regType = "coil" :=
      List.mem_filter.mpr ⟨hsp, by simp [hrt]⟩
    have hflat := (bitStage_payload_perm (iterRegEntities ents) "coil").mem_iff.mpr hfil
    obtain ⟨pl, hpl, hsppl⟩ := List.mem_flatten.mp hflat
    obtain ⟨g, hg, rfl⟩ := List.mem_map.mp hpl
    have hfind := bitRange_find (iterRegEntities ents) "coil" hnodup g hg sp hsppl
    have hout : specOutcome o (iterRegEntities ents) sp
        = rangeBitOutcome o.readCoils g sp := by
      rw [specOutcome, if_neg (by rw [hrt]; decide), if_neg (by rw [hrt]; decide),
        if_pos hrt, hfind]
    rw [hout]
    refine lookup_applyUpdates_of_mem _ _ _ _ hnodupU ?_
    rw [updatesFor]
    refine List.mem_append_left _ (List.mem_append_right _ ?_)
    refine List.mem_flatten.mpr
      ⟨processBitRange o.readCoils g, List.mem_map.mpr ⟨g, hg, rfl⟩, ?_⟩
    rw [processBitRange_eq_map]
    exact List.mem_map.mpr ⟨sp, hsppl, rfl⟩
  · -- discrete
    have hfil : sp ∈ (iterRegEntities ents).filter fun q => q.regType = "discrete" :=
      List.mem_filter.mpr ⟨hsp, by simp [hrt]⟩
    have hflat := (bitStage_payload_perm (iterRegEntities ents) "discrete").mem_iff.mpr hfil
    obtain ⟨pl, hpl, hsppl⟩ := List.mem_flatten.mp hflat
    obtain ⟨g, hg, rfl⟩ := List.mem_map.mp hpl
    have hfind := bitRange_find (iterRegEntities ents) "discrete" hnodup g hg sp hsppl
    have hout : specOutcome o (iterRegEntities ents) sp
        = rangeBitOutcome o.readDiscrete g sp := by
      rw [specOutcome, if_neg (by rw [hrt]; decide), if_neg (by rw [hrt]; decide),
        if_neg (by rw [hrt]; decide), hfind]
    rw [hout]
    refine lookup_applyUpdates_of_mem _ _ _ _ hnodupU ?_
    rw [updatesFor]
    refine List.mem_append_right _ ?_
    refine List.mem_flatten.mpr
      ⟨processBitRange o.readDiscrete g, List.mem_map.mpr ⟨g, hg, rfl⟩, ?_⟩
    rw [processBitRange_eq_map]
    exact List.mem_map.mpr ⟨sp, hsppl, rfl⟩


/-! ## C4: bit extraction -/

/-- C4: whenever a read spec carries a (valid) bit index, both the
batch-decode path and the per-entity fallback path decode exactly
`bool((first_register >> bit) & 1)`: the value comes from the first
register only, is strictly a boolean, and the data type, word order and
scale of the spec are ignored. -/
theorem C4_bit_extraction :
    ∀ (sp : RSpec) (b : Int), sp.bit = some b → 0 ≤ b →
      ∀ (regs : List Nat) (r0 : Nat), regs.get? 0 = some r0 →
        decodeEntitySlice sp regs = some (.bool ((((r0 % 65536) >>> b.toNat) &&& 1) == 1))
        ∧ decodeEntityIndiv sp regs = some (.bool ((((r0 % 65536) >>> b.toNat) &&& 1) == 1))
        ∧ ∀ dt wo sc,
            decodeEntitySlice { sp with dtype := dt, wordOrder := wo, scale := sc } regs
              = decodeEntitySlice sp regs
            ∧ decodeEntityIndiv { sp with dtype := dt, wordOrder := wo, scale := sc } regs
              = decodeEntityIndiv sp regs := by
  intro sp b hbit hble regs r0 hr0
  have hnotlt : ¬b < 0 := not_lt.mpr hble
  refine ⟨?_, ?_, ?_⟩
  · rw [decodeEntitySlice, hbit, hr0]
    simp [hnotlt]
  · rw [decodeEntityIndiv, hbit, hr0]
    simp [hnotlt]
  · intro dt wo sc
    constructor
    · rw [decodeEntitySlice, decodeEntitySlice]
      simp only [hbit]
    · rw [decodeEntityIndiv, decodeEntityIndiv]
      simp only [hbit]

/-- Witness for C4: bit 3 of register `0b1000` with a `uint32` data
type and a scale, in both paths. -/
theorem C4_bit_extraction_witness :
    decodeEntitySlice ⟨"k", "holding", 0, "uint32", "AB", some 2, some 3, 2⟩ [8, 9]
        = some (.bool true)
    ∧ decodeEntityIndiv ⟨"k", "holding", 0, "uint32", "AB", some 2, some 3, 2⟩ [8, 9]
        = some (.bool true) := by
  have h := C4_bit_extraction ⟨"k", "holding", 0, "uint32", "AB", some 2, some 3, 2⟩ 3
    rfl (by decide) [8, 9] 8 rfl
  exact ⟨h.1, h.2.1⟩

/-! ## C5: batch failure, per-entity fallback, isolation -/

/-- C5: in a poll cycle with distinct entity keys, consider a planned
holding/input range whose batch read fails.  (a) If every entity's
individual fallback read-and-decode succeeds, the snapshot holds a
non-null value for every entity of that range.  (b) If exactly one
entity's fallback fails while every other planned entity's outcome is a
value, then exactly that entity's key is null and every other planned
key is populated - the failure aborts neither the range nor the cycle. -/
theorem C5_batch_fallback_isolation :
    ∀ (o : Oracle) (ents : List MEntity),
      ((iterRegEntities ents).map (·.key)).Nodup →
      ∀ (rt : String) (rd : Int → Int → Option (List Nat)),
        (rt = "holding" ∧ rd = o.readHolding) ∨ (rt = "input" ∧ rd = o.readInput) →
        ∀ g ∈ regRanges (iterRegEntities ents) rt,
          rd g.1 (g.2.1 - g.1 + 1) = none →
          ((∀ sp ∈ g.2.2,
              ∃ v, ((rd sp.addr sp.width).bind fun r => decodeEntityIndiv sp r) = some v) →
            ∀ sp ∈ g.2.2, ∃ v, (readAll o ents).lookup sp.key = some (some v))
          ∧ ∀ p ∈ g.2.2,
              ((rd p.addr p.width).bind fun r => decodeEntityIndiv p r) = none →
              (∀ q ∈ iterRegEntities ents, q.key ≠ p.key →
                ∃ v, specOutcome o (iterRegEntities ents) q = some v) →
              (readAll o ents).lookup p.key = some none
              ∧ ∀ q ∈ iterRegEntities ents, q.key ≠ p.key →
                  ∃ v, (readAll o ents).lookup q.key = some (some v) := by
  intro o ents hkeys rt rd hrtrd g hg hbatch
  have hnodup : (iterRegEntities ents).Nodup := List.Nodup.of_map _ hkeys
  have hmemof : ∀ sp ∈ g.2.2, sp ∈ iterRegEntities ents ∧ sp.regType = rt := by
    rcases hrtrd with ⟨hrt, _⟩ | ⟨hrt, _⟩ <;> subst hrt <;>
      exact fun sp hsp => regRange_payload_mem _ _ g hg sp hsp
  have houtcome : ∀ sp ∈ g.2.2,
      specOutcome o (iterRegEntities ents) sp
        = (rd sp.addr sp.width).bind fun r => decodeEntityIndiv sp r := by
    intro sp hsp
    rcases hrtrd with ⟨hrt, hrd⟩ | ⟨hrt, hrd⟩ <;> subst hrt <;> subst hrd
    · have hmem := regRange_payload_mem _ _ g hg sp hsp
      rw [specOutcome, if_pos hmem.2, regRange_find _ _ hnodup g hg sp hsp]
      simp only [rangeRegOutcome, hbatch]
    · have hmem := regRange_payload_mem _ _ g hg sp hsp
      rw [specOutcome, if_neg (by rw [hmem.2]; decide), if_pos hmem.2,
        regRange_find _ _ hnodup g hg sp hsp]
      simp only [rangeRegOutcome, hbatch]
  constructor
  · intro hfallb sp hsp
    have hl := snapshot_lookup o ents hkeys sp (hmemof sp hsp).1
    rw [houtcome sp hsp] at hl
    obtain ⟨v, hv⟩ := hfallb sp hsp
    rw [hv] at hl
    exact ⟨v, hl⟩
  · intro p hp hpfail hothers
    constructor
    · have hl := snapshot_lookup o ents hkeys p (hmemof p hp).1
      rw [houtcome p hp, hpfail] at hl
      exact hl
    · intro q hq hqk
      have hl := snapshot_lookup o ents hkeys q hq
      obtain ⟨v, hv⟩ := hothers q hq hqk
      rw [hv] at hl
      exact ⟨v, hl⟩

/-- Entities for the C5 witness scenario: two holding registers at
adjacent addresses, planned as one range `[0, 1]`. -/
def wEnts : List MEntity :=
  [⟨"sensor", "a", .dict { typ := some "holding", address := some 0 }⟩,
   ⟨"sensor", "b", .dict { typ := some "holding", address := some 1 }⟩]

/-- Link driver for the C5 witness: the batch read `(0, 2)` fails, the
individual read at address 0 yields register 5, the one at address 1
fails. -/
def wOracle : Oracle :=
  { readHolding := fun a c =>
      if a = 0 ∧ c = 2 then none
      else if a = 0 ∧ c = 1 then some [5]
      else none
    readInput := fun _ _ => none
    readCoils := fun _ _ => none
    readDiscrete := fun _ _ => none }

def wSpecA : RSpec := ⟨"a", "holding", 0, "uint16", "AB", none, none, 1⟩

def wSpecB : RSpec := ⟨"b", "holding", 1, "uint16", "AB", none, none, 1⟩

/-- Witness for C5: in the concrete scenario the failing entity is
null and the other entity keeps a value. -/
theorem C5_batch_fallback_isolation_witness :
    (readAll wOracle wEnts).lookup "b" = some none
    ∧ ∃ v, (readAll wOracle wEnts).lookup "a" = some (some v) := by
  have h := C5_batch_fallback_isolation wOracle wEnts (by decide) "holding"
    wOracle.readHolding (Or.inl ⟨rfl, rfl⟩) ((0 : Int), (1 : Int), [wSpecA, wSpecB])
    (by decide) (by decide)
  have hb := h.2 wSpecB (by decide) (by decide) ?_
  · exact ⟨hb.1, hb.2 wSpecA (by decide) (by decide)⟩
  · intro q hq hk
    have hq2 : q = wSpecA ∨ q = wSpecB := by
      have hq' : q ∈ [wSpecA, wSpecB] := hq
      simpa using hq'
    rcases hq2 with rfl | rfl
    · exact ⟨.int 5, by decide⟩
    · exact absurd rfl hk


/-! ## The refresh boundary: `_async_update_data`, `_ensure`, `_drop`
(`src/coordinator.py:214-262`) -/

/-- The exception kinds the refresh boundary distinguishes.  In Python,
`ConnectionError` and (since 3.10/3.11) `asyncio.TimeoutError` overlap
with `OSError`; the `isinstance` test is over the union, which the
three transport constructors jointly model. -/
inductive PyExc where
  | osError (msg : String)
  | connectionError (msg : String)
  | timeoutError (msg : String)
  | updateFailed (msg : String)
  | runtimeError (msg : String)
  | otherError (msg : String)
deriving DecidableEq, Repr

/-- `isinstance(e, (OSError, ConnectionError, asyncio.TimeoutError))`. -/
def PyExc.isTransport : PyExc → Bool
  | .osError _ => true
  | .connectionError _ => true
  | .timeoutError _ => true
  | _ => false

/-- `str(e)` for these single-argument exceptions. -/
def PyExc.msg : PyExc → String
  | .osError m => m
  | .connectionError m => m
  | .timeoutError m => m
  | .updateFailed m => m
  | .runtimeError m => m
  | .otherError m => m

/-- The coordinator state the refresh boundary touches:
`_mapping_loaded`, `_connected`, and `self.data` (None before the
first completed refresh). -/
structure CoordState where
  mappingLoaded : Bool
  connected : Bool
  data : Option Snapshot
deriving DecidableEq, Repr

/-- Embedding of one `_async_update_data` call
(`src/coordinator.py:244-262`) together with `_ensure` (214-220) and
`_drop` (222-224).  `mapLoad` is the result of `load_mapping_sync` (used
only when the mapping is not yet loaded; a failure is re-raised as
`UpdateFailed(str(ex))` outside the try block), `connectOk` the result
of the connect primitive (consulted only when not connected), and
`readRes` the outcome of `_read_all` (a raised exception or the fresh
snapshot).  Returns what the call returns (or raises) and the next
state; the framework stores a returned snapshot in `self.data`. -/
def refreshOnce (st : CoordState) (mapLoad : Except String Unit)
    (connectOk : Bool) (readRes : Except PyExc Snapshot) :
    Except PyExc Snapshot × CoordState :=
  match st.mappingLoaded, mapLoad with
  | false, .error m => (.error (.updateFailed m), st)
  | _, _ =>
    let st1 := { st with mappingLoaded := true }
    if st1.connected ∨ connectOk then
      let st2 := { st1 with connected := true }
      match readRes with
      | .ok d => (.ok d, { st2 with data := some d })
      | .error e =>
        -- except-handler: drop only on transport-level failures,
        -- then return the last known data (or the empty dict)
        let st3 := if e.isTransport then { st2 with connected := false } else st2
        let res : Snapshot := st3.data.getD []
        (.ok res, { st3 with data := some res })
    else
      -- `_ensure` raised UpdateFailed("Connect failed"), caught by the
      -- same except-handler: not transport-level, so no drop
      let res : Snapshot := st1.data.getD []
      (.ok res, { st1 with data := some res })

/-- Counterexample to C6 as stated: on the very first cycle with a
failing connect, refresh does not raise - it returns the empty
snapshot.  (And, conversely, a mapping-load failure does raise past the
boundary, which the claim does not allow.) -/
theorem C6_counterexample :
    (refreshOnce ⟨false, false, none⟩ (.ok ()) false (.ok [])).1 = .ok []
    ∧ (refreshOnce ⟨false, false, none⟩ (.error "boom") false (.ok [])).1
        = .error (.updateFailed "boom") := by
  constructor <;> rfl

/-- C6 (amended): once the mapping loads, refresh never raises; after
an attempted read cycle that failed, the connection is dropped iff the
failure is transport-level (OS/network error or timeout) and the last
good snapshot is returned; a connect failure (in particular on the
first cycle) returns the last snapshot - empty at first - without
raising; the only exception that escapes the boundary is a mapping-load
failure, re-raised as an update failure. -/
theorem C6_transport_drop_amended :
    ∀ (st : CoordState) (connectOk : Bool) (readRes : Except PyExc Snapshot),
      (∃ d, (refreshOnce st (.ok ()) connectOk readRes).1 = .ok d)
      ∧ ((st.connected = true ∨ connectOk = true) → ∀ e, readRes = .error e →
          ((refreshOnce st (.ok ()) connectOk readRes).2.connected = false
            ↔ e.isTransport = true)
          ∧ (refreshOnce st (.ok ()) connectOk readRes).1 = .ok (st.data.getD []))
      ∧ (∀ d, readRes = .ok d → (st.connected = true ∨ connectOk = true) →
          (refreshOnce st (.ok ()) connectOk readRes).1 = .ok d
          ∧ (refreshOnce st (.ok ()) connectOk readRes).2.connected = true)
      ∧ (st.connected = false → connectOk = false →
          (refreshOnce st (.ok ()) connectOk readRes).1 = .ok (st.data.getD [])
          ∧ (refreshOnce st (.ok ()) connectOk readRes).2.connected = false)
      ∧ ∀ m, st.mappingLoaded = false →
          (refreshOnce st (.error m) connectOk readRes).1 = .error (.updateFailed m) := by
  intro st connectOk readRes
  obtain ⟨ml, conn, data⟩ := st
  refine ⟨?_, ?_, ?_, ?_, ?_⟩
  · cases ml <;> cases conn <;> cases connectOk <;> rcases readRes with e | d <;>
      exact ⟨_, rfl⟩
  · rintro hconn e rfl
    constructor
    · cases ml <;> cases conn <;> cases connectOk <;> cases e <;>
        simp [refreshOnce, PyExc.isTransport]
      all_goals simp at hconn
    · cases ml <;> cases conn <;> cases connectOk <;> cases e <;> rfl
  · rintro d rfl hconn
    cases ml <;> cases conn <;> cases connectOk <;>
      first
        | exact ⟨rfl, rfl⟩
        | simp at hconn
  · rintro hc hok
    subst hc
    subst hok
    cases ml <;> rcases readRes with e | d <;> exact ⟨rfl, rfl⟩
  · rintro m hml
    subst hml
    rfl

/-- Witness for C6 (amended): a non-transport read failure on a
connected coordinator keeps the connection and returns the previous
snapshot; a timeout drops it. -/
theorem C6_transport_drop_amended_witness :
    (refreshOnce ⟨true, true, some [("k", some (.int 1))]⟩ (.ok ()) true
        (.error (.runtimeError "Modbus error response"))).2.connected = true
    ∧ (refreshOnce ⟨true, true, some [("k", some (.int 1))]⟩ (.ok ()) true
        (.error (.runtimeError "Modbus error response"))).1 = .ok [("k", some (.int 1))]
    ∧ (refreshOnce ⟨true, true, some [("k", some (.int 1))]⟩ (.ok ()) true
        (.error (.timeoutError "timed out"))).2.connected = false := by
  have h1 := (C6_transport_drop_amended ⟨true, true, some [("k", some (.int 1))]⟩ true
    (.error (.runtimeError "Modbus error response"))).2.1 (Or.inl rfl) _ rfl
  have h2 := (C6_transport_drop_amended ⟨true, true, some [("k", some (.int 1))]⟩ true
    (.error (.timeoutError "timed out"))).2.1 (Or.inl rfl) _ rfl
  refine ⟨?_, h1.2, h2.1.mpr rfl⟩
  by_contra hfalse
  have := h1.1.mp (by revert hfalse; cases hq : (refreshOnce ⟨true, true,
    some [("k", some (.int 1))]⟩ (.ok ()) true
    (.error (.runtimeError "Modbus error response"))).2.connected <;> simp)
  simp [PyExc.isTransport] at this


/-! ## Writes: `write_holding` (`src/coordinator.py:539-590`) -/

/-- Embedding of `_ensure` (`src/coordinator.py:214-220`) in isolation:
result, connected flag afterwards, and the number of calls made to the
connect primitive (the body contains a single call and no loop). -/
def ensureModel (connected : Bool) (connectOk : Bool) : Except PyExc Unit × Bool × Nat :=
  if connected then (.ok (), true, 0)
  else if connectOk then (.ok (), true, 1)
  else (.error (.updateFailed "Connect failed"), false, 1)

/-- The fields of an entity's `write` dict that `write_holding` reads.
`address` is taken as parsed (`int(w["address"])` happens before the
retry loop; its failure is outside the modelled scope); `bit`, when
present, as `int(w["bit"])`; `scale` as the raw number `w.get("scale")`. -/
structure WriteDict where
  typ : Option String := none
  address : Int
  bit : Option Int := none
  scale : Option PyNum := none
deriving DecidableEq, Repr

/-- What the link does during one write attempt: the connect primitive
(consulted only when disconnected), the read for the read-modify-write
bit path, and the register write. -/
structure AttemptEnv where
  connectOk : Bool
  readRes : Except PyExc (List Nat)
  writeRes : Except PyExc Unit
deriving Repr

/-- Result of one attempt: outcome, connected flag afterwards, and the
`read_holding_registers(addr, 1)` / `write_register(addr, value)` calls
issued (with the value passed). -/
structure AttemptResult where
  res : Except PyExc Unit
  connected : Bool
  reads : List (Int × Int)
  writes : List (Int × Int)
deriving Repr

/-- One iteration of the retry loop in `write_holding`
(`src/coordinator.py:553-581`): ensure the connection; then either the
bit path (read register, set or clear the bit per the truthiness of
the input, write back) or the plain path (inverse-scale unless the
scale is absent or zero, truncate to int, write). -/
def writeAttempt (w : WriteDict) (value : PyNum) (env : AttemptEnv)
    (connected : Bool) : AttemptResult :=
  if ¬connected ∧ ¬env.connectOk then
    { res := .error (.updateFailed "Connect failed"), connected := false,
      reads := [], writes := [] }
  else
    match w.bit with
    | some b =>
      match env.readRes with
      | .error e => { res := .error e, connected := true, reads := [(w.address, 1)], writes := [] }
      | .ok regs =>
        match regs.get? 0 with
        | none =>
          -- rr.registers[0] raised IndexError
          { res := .error (.otherError "IndexError"), connected := true,
            reads := [(w.address, 1)], writes := [] }
        | some r0 =>
          if b < 0 then
            -- 1 << bit raises ValueError for a negative bit
            { res := .error (.otherError "ValueError"), connected := true,
              reads := [(w.address, 1)], writes := [] }
          else
            -- cur = int(rr.registers[0]) & 0xFFFF; set/clear bit; write back
            let cur := r0 % 65536
            let cur2 := if value.truthy then cur ||| (1 <<< b.toNat)
                        else Nat.ldiff cur (1 <<< b.toNat)
            match env.writeRes with
            | .ok _ =>
              { res := .ok (), connected := true,
                reads := [(w.address, 1)], writes := [(w.address, (cur2 : Int))] }
            | .error e =>
              { res := .error e, connected := true,
                reads := [(w.address, 1)], writes := [(w.address, (cur2 : Int))] }
    | none =>
      -- v = value; if scale is not None and float(scale) != 0.0: v = float(value)/float(scale)
      -- write_register(addr, int(v))
      let v : Int :=
        match w.scale with
        | some s => if s.toFloat ≠ 0 then ratTrunc (value.toFloat / s.toFloat) else value.toInt
        | none => value.toInt
      match env.writeRes with
      | .ok _ => { res := .ok (), connected := true, reads := [], writes := [(w.address, v)] }
      | .error e => { res := .error e, connected := true, reads := [], writes := [(w.address, v)] }

/-- Overall outcome of `write_holding`: result, the link calls issued,
the number of loop iterations executed, and the connected flag. -/
structure WriteOutcome where
  result : Except PyExc Unit
  reads : List (Int × Int)
  writes : List (Int × Int)
  attempts : Nat
  connected : Bool
deriving Repr

/-- Embedding of `write_holding(ent, value)`
(`src/coordinator.py:539-590`): a missing write section is a silent
no-op; a non-holding `write.type` raises; otherwise up to two attempts,
with `_drop` (disconnect) after each failed attempt, and
`UpdateFailed(str(last))` after the second failure. -/
def writeHolding (wsec : Option WriteDict) (value : PyNum) (connected0 : Bool)
    (env0 env1 : AttemptEnv) : WriteOutcome :=
  match wsec with
  | none =>
    { result := .ok (), reads := [], writes := [], attempts := 0, connected := connected0 }
  | some w =>
    if w.typ.getD "holding" ≠ "holding" then
      { result := .error (.updateFailed "write.type wird derzeit nicht unterstuetzt"),
        reads := [], writes := [], attempts := 0, connected := connected0 }
    else
      let a0 := writeAttempt w value env0 connected0
      match a0.res with
      | .ok _ =>
        { result := .ok (), reads := a0.reads, writes := a0.writes,
          attempts := 1, connected := a0.connected }
      | .error _ =>
        -- except: last = ex; await self._drop()  (connected := false)
        let a1 := writeAttempt w value env1 false
        match a1.res with
        | .ok _ =>
          { result := .ok (), reads := a0.reads ++ a1.reads,
            writes := a0.writes ++ a1.writes, attempts := 2, connected := a1.connected }
        | .error e1 =>
          -- drop again, then raise UpdateFailed(str(last))
          { result := .error (.updateFailed e1.msg), reads := a0.reads ++ a1.reads,
            writes := a0.writes ++ a1.writes, attempts := 2, connected := false }


/-! ## C7: retry policy -/

/-- Counterexample to C7 as stated: `_ensure`, the connect step of a
refresh, makes exactly one connect attempt (not two) and its failure
surfaces as `UpdateFailed` immediately. -/
theorem C7_counterexample :
    (ensureModel false false).2.2 = 1
    ∧ ¬(ensureModel false false).2.2 = 2
    ∧ (ensureModel false false).1 = .error (.updateFailed "Connect failed") := by
  refine ⟨rfl, by decide, rfl⟩

/-- C7 (amended): `write_holding` makes exactly 2 attempts, separated
by an explicit disconnect (the second attempt always starts
disconnected), and exhausting both raises `UpdateFailed` carrying the
last underlying error's message; a successful first attempt stops after
1 attempt.  Refresh's connect (`_ensure`) makes at most one connect
call. -/
theorem C7_retry_policy_amended :
    (∀ (connected connectOk : Bool), (ensureModel connected connectOk).2.2 ≤ 1)
    ∧ ∀ (w : WriteDict) (value : PyNum) (c0 : Bool) (env0 env1 : AttemptEnv),
        w.typ.getD "holding" = "holding" →
        (∀ e0 e1, (writeAttempt w value env0 c0).res = .error e0 →
          (writeAttempt w value env1 false).res = .error e1 →
          (writeHolding (some w) value c0 env0 env1).result = .error (.updateFailed e1.msg)
          ∧ (writeHolding (some w) value c0 env0 env1).attempts = 2
          ∧ (writeHolding (some w) value c0 env0 env1).connected = false)
        ∧ ∀ u, (writeAttempt w value env0 c0).res = .ok u →
            (writeHolding (some w) value c0 env0 env1).result = .ok ()
            ∧ (writeHolding (some w) value c0 env0 env1).attempts = 1 := by
  constructor
  · intro connected connectOk
    cases connected <;> cases connectOk <;> simp [ensureModel]
  · intro w value c0 env0 env1 htyp
    have htyp2 : ¬w.typ.getD "holding" ≠ "holding" := by simp [htyp]
    constructor
    · intro e0 e1 h0 h1
      rw [writeHolding]
      simp only [htyp2, if_neg, not_false_iff, h0, h1]
      exact ⟨trivial, trivial, trivial⟩
    · intro u h0
      rw [writeHolding]
      simp only [htyp2, if_neg, not_false_iff, h0]
      exact ⟨trivial, trivial⟩

/-- Witness for C7 (amended): with a dead link both attempts fail with
`Connect failed` and `write_holding` raises `UpdateFailed` with that
message after 2 attempts. -/
theorem C7_retry_policy_amended_witness :
    (writeHolding (some ⟨none, 0, none, none⟩) (.int 1) false
        ⟨false, .ok [], .ok ()⟩ ⟨false, .ok [], .ok ()⟩).result
      = .error (.updateFailed "Connect failed")
    ∧ (writeHolding (some ⟨none, 0, none, none⟩) (.int 1) false
        ⟨false, .ok [], .ok ()⟩ ⟨false, .ok [], .ok ()⟩).attempts = 2 := by
  have h := ((C7_retry_policy_amended.2 ⟨none, 0, none, none⟩ (.int 1) false
    ⟨false, .ok [], .ok ()⟩ ⟨false, .ok [], .ok ()⟩ rfl).1
    (.updateFailed "Connect failed") (.updateFailed "Connect failed") rfl rfl)
  exact ⟨h.1, h.2.1⟩

/-! ## C8: bit writes are read-modify-write with a single-bit frame -/

/-- C8: for every bit index in `[0, 15]`, every 16-bit current register
value and every boolean-ish input, a bit write reads the register once
and writes back exactly the read value with bit `b` set (truthy input)
or cleared (falsy input); bit `b` of the written value equals the
input's truthiness and every other bit is unchanged. -/
theorem C8_bit_write_read_modify_write :
    ∀ (w : WriteDict) (b : Int) (value : PyNum) (r0 : Nat) (rest : List Nat)
      (c0 : Bool) (env0 env1 : AttemptEnv),
      w.typ.getD "holding" = "holding" → w.bit = some b → 0 ≤ b → b ≤ 15 →
      r0 < 2 ^ 16 →
      (c0 = true ∨ env0.connectOk = true) →
      env0.readRes = .ok (r0 :: rest) → env0.writeRes = .ok () →
      (writeHolding (some w) value c0 env0 env1).result = .ok ()
      ∧ (writeHolding (some w) value c0 env0 env1).reads = [(w.address, 1)]
      ∧ (writeHolding (some w) value c0 env0 env1).writes
          = [(w.address, ((if value.truthy then r0 ||| (1 <<< b.toNat)
              else Nat.ldiff r0 (1 <<< b.toNat)) : Int))]
      ∧ (if value.truthy then r0 ||| (1 <<< b.toNat)
          else Nat.ldiff r0 (1 <<< b.toNat)).testBit b.toNat = value.truthy
      ∧ ∀ j, j ≠ b.toNat →
          (if value.truthy then r0 ||| (1 <<< b.toNat)
            else Nat.ldiff r0 (1 <<< b.toNat)).testBit j = r0.testBit j := by
  intro w b value r0 rest c0 env0 env1 htyp hbit hb0 hb15 hr0 hconn hread hwrite
  have htyp2 : ¬w.typ.getD "holding" ≠ "holding" := by simp [htyp]
  have hc : ¬(¬c0 = true ∧ ¬env0.connectOk = true) := by
    rcases hconn with h | h <;> simp [h]
  have hnotlt : ¬b < 0 := not_lt.mpr hb0
  have hmod : r0 % 65536 = r0 := Nat.mod_eq_of_lt hr0
  have hattempt : writeAttempt w value env0 c0
      = { res := .ok (), connected := true, reads := [(w.address, 1)],
          writes := [(w.address, ((if value.truthy then r0 ||| (1 <<< b.toNat)
            else Nat.ldiff r0 (1 <<< b.toNat)) : Int))] } := by
    rw [writeAttempt, if_neg hc, hbit, hread]
    simp only [List.get?_cons_zero, hnotlt, if_neg, not_false_iff, hmod, hwrite]
    cases value.truthy <;> rfl
  have hmain : writeHolding (some w) value c0 env0 env1
      = { result := .ok (), reads := [(w.address, 1)],
          writes := [(w.address, ((if value.truthy then r0 ||| (1 <<< b.toNat)
            else Nat.ldiff r0 (1 <<< b.toNat)) : Int))],
          attempts := 1, connected := true } := by
    rw [writeHolding]
    simp only [htyp2, if_neg, not_false_iff, hattempt]
  refine ⟨by rw [hmain], by rw [hmain], by rw [hmain], ?_, ?_⟩
  · cases hv : value.truthy
    · simp [Nat.testBit_ldiff, Nat.one_shiftLeft, Nat.testBit_two_pow_self]
    · simp [Nat.testBit_lor, Nat.one_shiftLeft, Nat.testBit_two_pow_self]
  · intro j hj
    cases hv : value.truthy
    · simp [Nat.testBit_ldiff, Nat.one_shiftLeft,
        Nat.testBit_two_pow_of_ne (fun h => hj h.symm)]
    · simp [Nat.testBit_lor, Nat.one_shiftLeft,
        Nat.testBit_two_pow_of_ne (fun h => hj h.symm)]

/-- Witness for C8: writing true to bit 3 of `0b0000` writes `0b1000`,
and writing false to bit 3 of `0b1000` writes `0b0000`. -/
theorem C8_bit_write_read_modify_write_witness :
    (writeHolding (some ⟨none, 7, some 3, none⟩) (.bool true) false
        ⟨true, .ok [0], .ok ()⟩ ⟨true, .ok [0], .ok ()⟩).writes = [(7, 8)]
    ∧ (writeHolding (some ⟨none, 7, some 3, none⟩) (.bool false) false
        ⟨true, .ok [8], .ok ()⟩ ⟨true, .ok [8], .ok ()⟩).writes = [(7, 0)] := by
  have h1 := C8_bit_write_read_modify_write ⟨none, 7, some 3, none⟩ 3 (.bool true) 0 []
    false ⟨true, .ok [0], .ok ()⟩ ⟨true, .ok [0], .ok ()⟩ rfl rfl (by decide) (by decide)
    (by decide) (Or.inr rfl) rfl rfl
  have h2 := C8_bit_write_read_modify_write ⟨none, 7, some 3, none⟩ 3 (.bool false) 8 []
    false ⟨true, .ok [8], .ok ()⟩ ⟨true, .ok [8], .ok ()⟩ rfl rfl (by decide) (by decide)
    (by decide) (Or.inr rfl) rfl rfl
  have hsh : (1 : Nat) <<< (3 : Int).toNat = 8 := rfl
  have hld : Nat.ldiff 8 8 = 0 := Nat.eq_of_testBit_eq fun j => by simp [Nat.testBit_ldiff]
  constructor
  · rw [h1.2.2.1]
    simp [PyNum.truthy, hsh]
  · rw [h2.2.2.1]
    simp [PyNum.truthy, hsh, hld]

/-! ## C9: plain holding writes inverse-scale then truncate -/

/-- C9: for a plain (non-bit) holding write, the register value written
is the input divided by the scale and truncated toward zero; the
division is skipped - the input value used directly (truncated) -
exactly when the scale is absent or zero, so the write path never
divides by zero. -/
theorem C9_plain_write_scaling :
    ∀ (w : WriteDict) (value : PyNum) (c0 : Bool) (env0 env1 : AttemptEnv),
      w.typ.getD "holding" = "holding" → w.bit = none →
      (c0 = true ∨ env0.connectOk = true) → env0.writeRes = .ok () →
      (writeHolding (some w) value c0 env0 env1).result = .ok ()
      ∧ (writeHolding (some w) value c0 env0 env1).reads = []
      ∧ (∀ s, w.scale = some s → s.toFloat ≠ 0 →
          (writeHolding (some w) value c0 env0 env1).writes
            = [(w.address, ratTrunc (value.toFloat / s.toFloat))])
      ∧ (∀ s, w.scale = some s → s.toFloat = 0 →
          (writeHolding (some w) value c0 env0 env1).writes = [(w.address, value.toInt)])
      ∧ (w.scale = none →
          (writeHolding (some w) value c0 env0 env1).writes = [(w.address, value.toInt)]) := by
  intro w value c0 env0 env1 htyp hbit hconn hwrite
  have htyp2 : ¬w.typ.getD "holding" ≠ "holding" := by simp [htyp]
  have hc : ¬(¬c0 = true ∧ ¬env0.connectOk = true) := by
    rcases hconn with h | h <;> simp [h]
  have hattempt : writeAttempt w value env0 c0
      = { res := .ok (), connected := true, reads := [],
          writes := [(w.address,
            match w.scale with
            | some s => if s.toFloat ≠ 0 then ratTrunc (value.toFloat / s.toFloat)
                        else value.toInt
            | none => value.toInt)] } := by
    rw [writeAttempt, if_neg hc, hbit, hwrite]
  have hmain : writeHolding (some w) value c0 env0 env1
      = { result := .ok (), reads := [],
          writes := [(w.address,
            match w.scale with
            | some s => if s.toFloat ≠ 0 then ratTrunc (value.toFloat / s.toFloat)
                        else value.toInt
            | none => value.toInt)],
          attempts := 1, connected := true } := by
    rw [writeHolding]
    simp only [htyp2, if_neg, not_false_iff, hattempt]
  refine ⟨by rw [hmain], by rw [hmain], ?_, ?_, ?_⟩
  · intro s hs hs0
    rw [hmain]
    simp [hs, hs0]
  · intro s hs hs0
    rw [hmain]
    simp [hs, hs0]
  · intro hs
    rw [hmain]
    simp [hs]

/-- Witness for C9: input 5 with scale 2 writes 2 (= int(5 / 2)); input
5.9 with scale 0 skips the division and writes 5. -/
theorem C9_plain_write_scaling_witness :
    (writeHolding (some ⟨none, 7, none, some (.float 2)⟩) (.int 5) false
        ⟨true, .ok [], .ok ()⟩ ⟨true, .ok [], .ok ()⟩).writes = [(7, 2)]
    ∧ (writeHolding (some ⟨none, 7, none, some (.int 0)⟩) (.float (59 / 10)) false
        ⟨true, .ok [], .ok ()⟩ ⟨true, .ok [], .ok ()⟩).writes = [(7, 5)] := by
  have h1 := (C9_plain_write_scaling ⟨none, 7, none, some (.float 2)⟩ (.int 5) false
    ⟨true, .ok [], .ok ()⟩ ⟨true, .ok [], .ok ()⟩ rfl rfl (Or.inr rfl) rfl).2.2.1
    (.float 2) rfl (by norm_num [PyNum.toFloat])
  have h2 := (C9_plain_write_scaling ⟨none, 7, none, some (.int 0)⟩ (.float (59 / 10)) false
    ⟨true, .ok [], .ok ()⟩ ⟨true, .ok [], .ok ()⟩ rfl rfl (Or.inr rfl) rfl).2.2.2.1
    (.int 0) rfl (by norm_num [PyNum.toFloat])
  refine ⟨h1.trans ?_, h2.trans ?_⟩
  · norm_num [ratTrunc, PyNum.toFloat]
  · norm_num [PyNum.toInt, ratTrunc]


/-! ## C1: the mapping loader `_parse_mapping_data`
(`src/coordinator.py:77-134`)

The loading path is self-contained in the source: `load_mapping_sync`
calls `_parse_mapping_data` directly and no other validation runs.  The
embedding below follows that code: fail-fast `ValueError`s for the
root/device/entities shape, non-dict entity entries silently skipped,
`str(e.get(...))` coercion for platform/key/name (a missing key becomes
the string "None"), legacy `min`/`max` fallback, and `float(...)`
conversions whose failure raises out of the parser. -/

/-- A dynamic (Python-like) document value as YAML loading produces it:
scalars, `None`, lists and dicts. -/
inductive PVal where
  | str (s : String)
  | int (n : Int)
  | float (q : ℚ)
  | bool (b : Bool)
  | none
  | list (xs : List PVal)
  | dict (kvs : List (String × PVal))

/-- `d.get(k)` on a dict: the value when the key is present. -/
def pget (kvs : List (String × PVal)) (k : String) : Option PVal :=
  (kvs.find? fun kv => kv.1 == k).map (·.2)

/-- `k in d`. -/
def keyPresent (kvs : List (String × PVal)) (k : String) : Bool :=
  kvs.any fun kv => kv.1 == k

/-- `d.get(k)` collapsed the way the `is None` tests see it: a missing
key and an explicit `None` value are indistinguishable. -/
def getNonNone (kvs : List (String × PVal)) (k : String) : Option PVal :=
  match pget kvs k with
  | some .none => Option.none
  | x => x

/-- Python `str(x)` for the values the parser stringifies.  The scalar
and `None` cases are exact (`str(None) = "None"`); the container cases
are placeholders, never exercised by the parser on the claim-relevant
fields. -/
def pyStr : PVal → String
  | .str s => s
  | .int n => toString n
  | .float q => toString q
  | .bool b => if b then "True" else "False"
  | .none => "None"
  | .list _ => "<list>"
  | .dict _ => "<dict>"

/-- Python `float(x)`: numbers (and bools) convert; `None`, containers
and non-numeric strings raise, modelled as `none`.  (Numeric strings,
which Python would accept, are approximated as failing; the parser
fields involved play no role in the claim.) -/
def pyFloat : PVal → Option ℚ
  | .int n => some (n : ℚ)
  | .float q => some q
  | .bool b => some (if b then 1 else 0)
  | _ => Option.none

/-- `minimum = e.get("minimum"); if minimum is None and "min" in e:
minimum = e.get("min")` - the modern spelling, falling back to the
legacy one when absent or `None`. -/
def mmRaw (kvs : List (String × PVal)) (modern legacy : String) : Option PVal :=
  match getNonNone kvs modern with
  | some v => some v
  | Option.none => if keyPresent kvs legacy then getNonNone kvs legacy else Option.none

/-- The fields of `MappedEntity` the parser computes that the claim can
observe (platform/key/name coercions, raw read/write sections, parsed
numeric bounds). -/
structure PEntity where
  platform : String
  key : String
  name : String
  read : Option PVal
  write : Option PVal
  minimum : Option ℚ
  maximum : Option ℚ
  step : Option ℚ

/-- One iteration of the entity loop of `_parse_mapping_data`
(`src/coordinator.py:91-119`): a non-dict entry is skipped silently
(`continue`); otherwise the `MappedEntity` is built, with
`str(e.get("platform"))` / `str(e.get("key"))` coercing a missing field
to the string "None", and `float(...)` of an unconvertible
minimum/maximum/step raising out of the parser (modelled as
`Except.error`). -/
def parseEntity (e : PVal) : Except String (Option PEntity) :=
  match e with
  | .dict kvs => do
    let minimum ← match mmRaw kvs "minimum" "min" with
      | some v =>
        match pyFloat v with
        | some q => pure (some q)
        | Option.none => throw "could not convert to float"
      | Option.none => pure Option.none
    let maximum ← match mmRaw kvs "maximum" "max" with
      | some v =>
        match pyFloat v with
        | some q => pure (some q)
        | Option.none => throw "could not convert to float"
      | Option.none => pure Option.none
    let step ← match getNonNone kvs "step" with
      | some v =>
        match pyFloat v with
        | some q => pure (some q)
        | Option.none => throw "could not convert to float"
      | Option.none => pure Option.none
    pure (some
      { platform := pyStr ((pget kvs "platform").getD .none)
        key := pyStr ((pget kvs "key").getD .none)
        name := pyStr ((pget kvs "name").getD ((pget kvs "key").getD .none))
        read := pget kvs "read"
        write := pget kvs "write"
        minimum := minimum, maximum := maximum, step := step })
  | _ => pure Option.none

/-- Embedding of `_parse_mapping_data(filename, data)`
(`src/coordinator.py:77-121`): fail-fast on the first structural
problem (root, then device, then entities - a single `ValueError`
message, never a collected list), then the entity loop. -/
def parseMappingData (filename : String) (data : PVal) :
    Except String (PVal × List PEntity) :=
  match data with
  | .dict kvs =>
    match pget kvs "device" with
    | some (.dict dkvs) =>
      match pget kvs "entities" with
      | some (.list es) => do
        let opts ← es.mapM parseEntity
        pure (PVal.dict dkvs, opts.reduceOption)
      | _ => throw (filename ++ ": entities must be a list")
    | _ => throw (filename ++ ": device must be a mapping/dict")
  | _ => throw (filename ++ ": root must be a mapping/dict")

/-- The C1 failing input: a well-shaped root and device, and an entity
list with a duplicate key, an entity missing both platform and key,
and a non-dict entry. -/
def c1FailingDoc : PVal :=
  .dict
    [("device", .dict [("name", .str "Dev")]),
     ("entities", .list
       [.dict [("platform", .str "sensor"), ("key", .str "t1")],
        .dict [("platform", .str "sensor"), ("key", .str "t1")],
        .dict [],
        .str "oops"])]

/-- C1: evaluation of the source parser at the failing input.  Loading
succeeds silently: the duplicate key "t1" is unflagged, the entity
with missing platform and key is accepted with both coerced to the
string "None", and the non-dict entry is dropped without an error.
Shape problems, by contrast, raise a single fail-fast message: a
non-dict root reports only the root problem, and a dict root with both
a bad device and bad entities reports only the device problem.  This
contradicts the claimed collect-all `MappingError`. -/
theorem C1_parse_mapping_silently_accepts :
    parseMappingData "dev.yaml" c1FailingDoc
      = .ok (.dict [("name", .str "Dev")],
          [{ platform := "sensor", key := "t1", name := "t1", read := Option.none,
             write := Option.none, minimum := Option.none, maximum := Option.none,
             step := Option.none },
           { platform := "sensor", key := "t1", name := "t1", read := Option.none,
             write := Option.none, minimum := Option.none, maximum := Option.none,
             step := Option.none },
           { platform := "None", key := "None", name := "None", read := Option.none,
             write := Option.none, minimum := Option.none, maximum := Option.none,
             step := Option.none }])
    ∧ parseMappingData "dev.yaml" (.str "oops")
        = .error "dev.yaml: root must be a mapping/dict"
    ∧ parseMappingData "dev.yaml"
          (.dict [("device", .str "bad"), ("entities", .str "bad")])
        = .error "dev.yaml: device must be a mapping/dict" := by
  refine ⟨rfl, rfl, rfl⟩

end ModbusMapped
